import Mathlib

/-!
A shallow embedding of the core of the `anvil` pixel-buffer engine
(`sledge-pdm/anvil`), together with proofs about its behaviour.

Conventions used throughout:
* JavaScript byte buffers (`Uint8ClampedArray` / `Uint8Array`) are modelled as
  `List Nat`, with writes clamped to `0..255` where the source uses a clamped
  array.
* JavaScript numbers that hold (possibly negative) integers are modelled as
  `Int`; array lengths and sizes that are always non-negative are `Nat`.
* JavaScript 32-bit operators (`<<`, `>>`, `>>>`, `|`, `&`) are modelled
  explicitly on `Int` via their ECMAScript semantics (conversion to a 32-bit
  two's-complement pattern, the operation on patterns, and conversion back to
  a signed value).
* Class instances become explicit state records, and methods become functions
  from state to state.  Exceptions become `Except` / `Option` error results;
  a method that throws before mutating anything is modelled as returning the
  unchanged state together with the error.
* The external WebP codec (a WASM import) is a parameter: an `ImageCodec`
  record of an encode and a decode function.
-/

namespace Anvil

/-- RGBA color, channel order R,G,B,A (source `types.ts`: `RGBA` is a
4-tuple of numbers; `color[0]` is `r`, …, `color[3]` is `a`). -/
structure RGBA where
  r : Nat
  g : Nat
  b : Nat
  a : Nat
deriving DecidableEq

/-! ## JavaScript 32-bit integer arithmetic

The packing helpers in `ops/packing/Packing.ts` use the JavaScript bitwise
operators.  ECMAScript converts every operand to a 32-bit two's-complement
pattern (`ToInt32`/`ToUint32`), operates on patterns, and returns a signed
32-bit value (except `>>>`, which returns the unsigned pattern). -/

/-- The 32-bit pattern (ECMAScript `ToUint32`) of an integral JS number. -/
def uint32 (x : Int) : Nat := (x % 4294967296).toNat

/-- Reinterpret a 32-bit pattern as a signed 32-bit value. -/
def int32OfPattern (u : Nat) : Int :=
  if u < 2147483648 then (u : Int) else (u : Int) - 4294967296

/-- JS `x << k` (shift amount is masked to 5 bits, result is signed). -/
def jsShl (x : Int) (k : Nat) : Int :=
  int32OfPattern ((uint32 x <<< (k % 32)) % 4294967296)

/-- JS `x >> k`: sign-propagating right shift.  On the signed 32-bit value
this is floor division by `2^k`; the divisor is positive, so Lean's `Int`
division (`Int.ediv`) computes exactly that floor. -/
def jsShrS (x : Int) (k : Nat) : Int :=
  int32OfPattern (uint32 x) / (2 ^ (k % 32) : Int)

/-- JS `x >>> k`: zero-fill right shift, result is the unsigned pattern. -/
def jsShrU (x : Int) (k : Nat) : Int :=
  ((uint32 x >>> (k % 32) : Nat) : Int)

/-- JS `x | y`. -/
def jsOr (x y : Int) : Int := int32OfPattern (Nat.lor (uint32 x) (uint32 y))

/-- JS `x & y`. -/
def jsAnd (x y : Int) : Int := int32OfPattern (Nat.land (uint32 x) (uint32 y))

/-- `rgbaToPackedU32` (source `ops/packing/Packing.ts`):
`(rgba[3] << 24) | (rgba[0] << 16) | (rgba[1] << 8) | rgba[2]`. -/
def rgbaToPackedU32 (c : RGBA) : Int :=
  jsOr (jsOr (jsOr (jsShl (c.a : Int) 24) (jsShl (c.r : Int) 16)) (jsShl (c.g : Int) 8)) (c.b : Int)

/-- `packedU32ToRgba` (source `ops/packing/Packing.ts`):
`[(packed >> 16) & 0xff, (packed >> 8) & 0xff, packed & 0xff, (packed >>> 24) & 0xff]`.
Each component of the result is non-negative, so the `Int.toNat` coercions
are exact. -/
def packedU32ToRgba (packed : Int) : RGBA :=
  { r := (jsAnd (jsShrS packed 16) 255).toNat
    g := (jsAnd (jsShrS packed 8) 255).toNat
    b := (jsAnd packed 255).toNat
    a := (jsAnd (jsShrU packed 24) 255).toNat }

/-! ## PixelBuffer (source `buffer/PixelBuffer.ts`)

The RGBA8 byte grid.  `data` is row-major, unpadded, 4 bytes per pixel.
Writes go through `Uint8ClampedArray`, which clamps each stored byte to
`0..255` (negative JS channel values are not representable here because
channels are `Nat`; every claim quantifies over `u8` channels). -/

structure PixelBuffer where
  width : Nat
  height : Nat
  data : List Nat
deriving DecidableEq

namespace PixelBuffer

/-- `Uint8ClampedArray` stores `min 255 v` for a non-negative integral `v`. -/
def clampByte (n : Nat) : Nat := min n 255

/-- Well-formedness invariant from the source constructor:
`data.length == width * height * 4`. -/
def WF (b : PixelBuffer) : Prop := b.data.length = b.width * b.height * 4

/-- `isInBounds(x, y)`: `x >= 0 && x < width && y >= 0 && y < height`. -/
def isInBounds (b : PixelBuffer) (x y : Int) : Bool :=
  0 ≤ x && x < (b.width : Int) && 0 ≤ y && y < (b.height : Int)

/-- Byte index of the pixel at in-bounds `(x, y)`: `(y * width + x) * 4`. -/
def pixelIdx (b : PixelBuffer) (x y : Int) : Nat :=
  (y.toNat * b.width + x.toNat) * 4

/-- `get(x, y)`: bounds-checked read; out-of-bounds yields transparent
black `(0,0,0,0)`. -/
def get (b : PixelBuffer) (x y : Int) : RGBA :=
  if b.isInBounds x y then
    let i := b.pixelIdx x y
    { r := b.data.getD i 0, g := b.data.getD (i+1) 0
      b := b.data.getD (i+2) 0, a := b.data.getD (i+3) 0 }
  else
    { r := 0, g := 0, b := 0, a := 0 }

/-- `set(x, y, color)`: bounds-checked write.  Returns whether any channel
actually changed, and the resulting buffer (the source mutates in place;
when nothing changed the bytes are not written). -/
def set (b : PixelBuffer) (x y : Int) (c : RGBA) : Bool × PixelBuffer :=
  if b.isInBounds x y then
    let i := b.pixelIdx x y
    let changed := !(b.data.getD i 0 == c.r) || !(b.data.getD (i+1) 0 == c.g)
      || !(b.data.getD (i+2) 0 == c.b) || !(b.data.getD (i+3) 0 == c.a)
    if changed then
      (true, { b with data :=
        ((((b.data.set i (clampByte c.r)).set (i+1) (clampByte c.g)).set
          (i+2) (clampByte c.b)).set (i+3) (clampByte c.a)) })
    else
      (false, b)
  else
    (false, b)

end PixelBuffer

/-! ## Patch data model (source `types/patch/*.ts`)

Unpacked diffs carry raw RGBA bytes; packed diffs carry WebP-encoded bytes
(for `partial` / `whole`) or packed `u32` colors (for pixels and tile fills).
The source field named `partial` is called `prtl` here because `partial` is a
Lean keyword. -/

/-- `TileIndex` (`{row, col}`).  JS tile indices are plain numbers and can in
principle be negative (e.g. from `pixelToTileIndex` on negative pixels), so
they are `Int`. -/
structure TileIndex where
  row : Int
  col : Int
deriving DecidableEq

/-- Axis-aligned rectangle `{x, y, width, height}`. -/
structure BoundBox where
  x : Int
  y : Int
  width : Int
  height : Int
deriving DecidableEq

/-- `PixelPatchData` (source `types/patch/pixel.ts`): position plus the
pre-change RGBA value, stored in the field named `color`. -/
structure PixelPatchData where
  x : Int
  y : Int
  color : RGBA
deriving DecidableEq

/-- `PackedPixelPatchData`: position plus the pre-change color as a packed
RGBA32 number. -/
structure PackedPixelPatchData where
  x : Int
  y : Int
  color : Int
deriving DecidableEq

/-- `TileFillPatchData` (source `types/patch/tileFill.ts`): tile index with
before/after uniform colors; `before` is `undefined` when the tile was not
uniform before the fill. -/
structure TileFillPatchData where
  tileIndex : TileIndex
  before : Option RGBA
  after : RGBA
deriving DecidableEq

/-- `PackedTileFillPatchData`: before/after as packed RGBA32. -/
structure PackedTileFillPatchData where
  tileIndex : TileIndex
  before : Option Int
  after : Int
deriving DecidableEq

/-- `PartialPatchData` (source `types/patch/partial.ts`): bounding box plus a
raw RGBA swap buffer. -/
structure PartialPatchData where
  boundBox : BoundBox
  swapBuffer : List Nat
deriving DecidableEq

/-- `PackedPartialPatchData`: bounding box plus a WebP-encoded swap buffer. -/
structure PackedPartialPatchData where
  boundBox : BoundBox
  swapBufferWebp : List Nat
deriving DecidableEq

/-- `WholePatchData` (source `types/patch/whole.ts`): dimensions plus a raw
RGBA swap buffer. -/
structure WholePatchData where
  width : Nat
  height : Nat
  swapBuffer : List Nat
deriving DecidableEq

/-- `PackedWholePatchData`: dimensions plus a WebP-encoded swap buffer. -/
structure PackedWholePatchData where
  width : Nat
  height : Nat
  swapBufferWebp : List Nat
deriving DecidableEq

/-- The key of the `tileFills` map.  The source uses the string
`tileKey(t) = t.row + "," + t.col`; on tile indices this string is uniquely
determined by (and determines) the pair `(row, col)`, so the key is modelled
as that pair. -/
def tileKey (t : TileIndex) : Int × Int := (t.row, t.col)

/-- `PendingDiffs` (source `types/patch/Patch.ts`): the accumulating state of
`LayerDiffsController`.  The `tileFills` JS `Map` is modelled as an
association list in insertion order (`Map.set` replaces the value of an
existing key in place and appends new keys; `Map.values()` iterates in that
order). -/
structure PendingDiffs where
  pixels : List PixelPatchData
  tileFills : List ((Int × Int) × TileFillPatchData)
  prtl : Option PartialPatchData
  whole : Option WholePatchData
deriving DecidableEq

/-- `PackedDiffs` (transport form): every field optional, empty fields
omitted (`none`). -/
structure PackedDiffs where
  pixels : Option (List PackedPixelPatchData) := none
  tiles : Option (List PackedTileFillPatchData) := none
  prtl : Option PackedPartialPatchData := none
  whole : Option PackedWholePatchData := none
deriving DecidableEq

/-- Errors surfaced by the engine (the source throws `Error`s with message
strings; `undefinedField` models the `TypeError` raised when a field access
on `undefined` is attempted). -/
inductive AnvilErr where
  | oob
  | partSizeMismatch
  | bufSizeMismatch
  | undefinedField
deriving DecidableEq

/-- JS `Map.set` on an association list: replace the value of an existing key
in place, otherwise append. -/
def alistSet {α β : Type} [DecidableEq α] (m : List (α × β)) (k : α) (v : β) :
    List (α × β) :=
  if m.any (fun e => decide (e.1 = k)) then
    m.map (fun e => if e.1 = k then (k, v) else e)
  else
    m ++ [(k, v)]

/-- JS `Map.delete` on an association list. -/
def alistDelete {α β : Type} [DecidableEq α] (m : List (α × β)) (k : α) :
    List (α × β) :=
  m.filter (fun e => !(decide (e.1 = k)))

/-- JS `Map.get` on an association list. -/
def alistGet? {α β : Type} [DecidableEq α] (m : List (α × β)) (k : α) :
    Option β :=
  (m.find? (fun e => decide (e.1 = k))).map (fun e => e.2)

/-- The external WebP codec (`ops_wasm`: `raw_to_webp` / `webp_to_raw`).
It is consumed through this interface; the engine never looks inside the
encoded bytes.  Dimensions are JS numbers (`Int`). -/
structure ImageCodec where
  rawToWebp : List Nat → Int → Int → List Nat
  webpToRaw : List Nat → Int → Int → List Nat

/-- A concrete admissible codec used for closed-form evaluations: encoding
prepends a marker byte, decoding drops it.  It satisfies the round-trip
guarantee `webpToRaw (rawToWebp b w h) w h = b` and is not the identity. -/
def consCodec : ImageCodec :=
  { rawToWebp := fun bs _ _ => 0 :: bs
    webpToRaw := fun bs _ _ => bs.drop 1 }

/-- The identity codec (also admissible: lossless, round-trips). -/
def idCodec : ImageCodec :=
  { rawToWebp := fun bs _ _ => bs
    webpToRaw := fun bs _ _ => bs }

/-! ## LayerDiffsController (source `buffer/LayerDiffsController.ts`)

The pending-diff state machine.  The controller's constructor fields
(`tilesController`, `tileSize`) are never used by its methods and are
omitted. -/

namespace Diffs

/-- The zero-initialized pending state. -/
def emptyPending : PendingDiffs :=
  { pixels := [], tileFills := [], prtl := none, whole := none }

/-- `addPixel(unpacked)`: `this.diffs.pixels.push(unpacked)`. -/
def addPixel (d : PendingDiffs) (p : PixelPatchData) : PendingDiffs :=
  { d with pixels := d.pixels ++ [p] }

/-- `addTileFill(unpacked)`: `this.diffs.tileFills.set(tileKey(...), unpacked)`. -/
def addTileFill (d : PendingDiffs) (t : TileFillPatchData) : PendingDiffs :=
  { d with tileFills := alistSet d.tileFills (tileKey t.tileIndex) t }

/-- `addPartial(unpacked)`: validates
`swapBuffer.length == boundBox.width * boundBox.height * 4` and throws
before touching any state on mismatch; on success stores the (raw, unpacked)
partial and clears the finer-grained pixel and tile-fill diffs.  The result
is the state of the controller after the call together with the thrown
error, if any. -/
def addPartial (d : PendingDiffs) (p : PartialPatchData) :
    PendingDiffs × Option AnvilErr :=
  let expected : Int := p.boundBox.width * p.boundBox.height * 4
  if (p.swapBuffer.length : Int) ≠ expected then
    (d, some .partSizeMismatch)
  else
    ({ d with prtl := some p, pixels := [], tileFills := [] }, none)

/-- `addWhole(unpacked)`: stores the (raw, unpacked) whole and clears pixels,
tile fills and the pending partial. -/
def addWhole (d : PendingDiffs) (w : WholePatchData) : PendingDiffs :=
  { d with whole := some w, prtl := none, pixels := [], tileFills := [] }

/-- `hasPendingChanges()`. -/
def hasPendingChanges (d : PendingDiffs) : Bool :=
  d.pixels.length > 0 || d.tileFills.length > 0 || d.prtl.isSome || d.whole.isSome

/-- One packed tile-fill entry, as produced by `packPending`'s tile loop:
`{tileIndex, before: tf.before && rgbaToPackedU32(tf.before), after: ...}`. -/
def packTileFill (t : TileFillPatchData) : PackedTileFillPatchData :=
  { tileIndex := t.tileIndex
    before := t.before.map rgbaToPackedU32
    after := rgbaToPackedU32 t.after }

/-- `packPending` (source `ops/packing/Packing.ts`).  The whole and the
partial are WebP-encoded here (`rawToWebp`), at flush/preview time; tile
fills are packed to `u32` colors.

The pixel branch of the source reads `px.before` and `px.after`, fields that
do not exist on `PixelPatchData` (which stores the single pre-image field
`color`); `rgbaToPackedU32(undefined)` then throws a `TypeError` on its
first element access.  That branch is therefore modelled as the error
`undefinedField` whenever there is at least one pending pixel. -/
def packPending (c : ImageCodec) (d : PendingDiffs) :
    Except AnvilErr PackedDiffs :=
  let pw := d.whole.map (fun w =>
    { swapBufferWebp := c.rawToWebp w.swapBuffer (w.width : Int) (w.height : Int)
      width := w.width, height := w.height : PackedWholePatchData })
  let pp := d.prtl.map (fun p =>
    { boundBox := p.boundBox
      swapBufferWebp :=
        c.rawToWebp p.swapBuffer p.boundBox.width p.boundBox.height :
      PackedPartialPatchData })
  let pt := if d.tileFills.isEmpty then none else
    some (d.tileFills.map (fun e => packTileFill e.2))
  if d.pixels.isEmpty then
    .ok { pixels := none, tiles := pt, prtl := pp, whole := pw }
  else
    .error .undefinedField

/-- `discardPendingChanges()`. -/
def discardPendingChanges (_d : PendingDiffs) : PendingDiffs := emptyPending

/-- `flush()`: `undefined` when nothing is pending, otherwise the packed
patch (which may throw, see `packPending`) and a cleared state. -/
def flush (c : ImageCodec) (d : PendingDiffs) :
    Except AnvilErr (Option PackedDiffs × PendingDiffs) :=
  if hasPendingChanges d then do
    let patch ← packPending c d
    .ok (some patch, emptyPending)
  else
    .ok (none, d)

/-- `previewPatch()`: like `flush` but without clearing the state. -/
def previewPatch (c : ImageCodec) (d : PendingDiffs) :
    Except AnvilErr (Option PackedDiffs) :=
  if hasPendingChanges d then do
    let patch ← packPending c d
    .ok (some patch)
  else
    .ok none

end Diffs

/-! ## LayerTilesController (source `buffer/LayerTilesController.ts`)

Coarse dirty/uniform tracking over a `tileSize × tileSize` lattice.  The
bitsets (`Uint32Array`, 32 tiles per word) are modelled as lists of 32-bit
words; `1 << bit` / `|=` / `&= ~(1 << bit)` / `& (1 << bit)` act on the
word's bit pattern, which for stored words `< 2^32` and bit positions
`< 32` coincides with `Nat` bit operations. -/

/-- `TileBounds` (`{x, y, width, height}` in pixel coordinates). -/
structure TileBounds where
  x : Int
  y : Int
  width : Int
  height : Int
deriving DecidableEq

/-- `TileInfo` as returned by `getTileInfo`. -/
structure TileInfo where
  index : TileIndex
  bounds : TileBounds
  isDirty : Bool
  isUniform : Bool
  uniformColor : Option RGBA
deriving DecidableEq

/-- The mutable state of a `LayerTilesController`.  The `buffer` back
reference is passed explicitly to the operations that read or write pixels
(`fillTile`, `detectTileUniformity`). -/
structure TilesState where
  tileSize : Nat
  rows : Nat
  cols : Nat
  totalTiles : Nat
  dirtyFlags : List Nat
  uniformFlags : List Nat
  uniformColors : List (Nat × Int)
deriving DecidableEq

namespace Tiles

/-- JS `Math.ceil(a / b)` for non-negative integers. -/
def ceilDiv (a b : Nat) : Nat := (a + b - 1) / b

/-- The constructor: `cols = ceil(width / tileSize)`,
`rows = ceil(height / tileSize)`, zeroed bitsets of
`ceil(totalTiles / 32)` words. -/
def mkTiles (width height tileSize : Nat) : TilesState :=
  let cols := ceilDiv width tileSize
  let rows := ceilDiv height tileSize
  let totalTiles := rows * cols
  let flagArraySize := ceilDiv totalTiles 32
  { tileSize, rows, cols, totalTiles
    dirtyFlags := List.replicate flagArraySize 0
    uniformFlags := List.replicate flagArraySize 0
    uniformColors := [] }

/-- `tileIndexToLinear` (source `ops/packing/Packing.ts`):
`index.row * cols + index.col`. -/
def tileIndexToLinear (index : TileIndex) (cols : Nat) : Int :=
  index.row * (cols : Int) + index.col

/-- `isValidTileIndex`. -/
def isValidTileIndex (st : TilesState) (index : TileIndex) : Bool :=
  0 ≤ index.row && index.row < (st.rows : Int) &&
  0 ≤ index.col && index.col < (st.cols : Int)

/-- Linear index as a `Nat` (used only after a validity check, where it is
non-negative). -/
def linearOf (st : TilesState) (index : TileIndex) : Nat :=
  (tileIndexToLinear index st.cols).toNat

/-- Read bit `linear` of a word bitset. -/
def flagGet (flags : List Nat) (linear : Nat) : Bool :=
  Nat.testBit (flags.getD (linear / 32) 0) (linear % 32)

/-- Write bit `linear` of a word bitset (`|= 1 << bit` /
`&= ~(1 << bit)`). -/
def flagSet (flags : List Nat) (linear : Nat) (v : Bool) : List Nat :=
  let w := linear / 32
  let bit := linear % 32
  let word := flags.getD w 0
  flags.set w (if v then word ||| (1 <<< bit)
               else word &&& (4294967295 ^^^ (1 <<< bit)))

/-- `isDirty(index)`: invalid indices read `false`. -/
def isDirty (st : TilesState) (index : TileIndex) : Bool :=
  isValidTileIndex st index && flagGet st.dirtyFlags (linearOf st index)

/-- `setDirty(index, dirty)`: invalid indices are silently ignored. -/
def setDirty (st : TilesState) (index : TileIndex) (v : Bool) : TilesState :=
  if isValidTileIndex st index then
    { st with dirtyFlags := flagSet st.dirtyFlags (linearOf st index) v }
  else st

/-- `isUniform(index)`. -/
def isUniform (st : TilesState) (index : TileIndex) : Bool :=
  isValidTileIndex st index && flagGet st.uniformFlags (linearOf st index)

/-- `setUniform(index, uniform, color?)`: sets the flag and records the
packed color in the sparse map, or clears both (the source's
`if (uniform && color)` tests that the color argument was passed). -/
def setUniform (st : TilesState) (index : TileIndex) (uniform : Bool)
    (color : Option RGBA) : TilesState :=
  if isValidTileIndex st index then
    let lin := linearOf st index
    match uniform, color with
    | true, some c =>
        { st with uniformFlags := flagSet st.uniformFlags lin true
                  uniformColors := alistSet st.uniformColors lin (rgbaToPackedU32 c) }
    | _, _ =>
        { st with uniformFlags := flagSet st.uniformFlags lin false
                  uniformColors := alistDelete st.uniformColors lin }
  else st

/-- `getUniformColor(index)`: `undefined` unless the uniform flag is set and
the sparse map has an entry. -/
def getUniformColor (st : TilesState) (index : TileIndex) : Option RGBA :=
  if isUniform st index then
    (alistGet? st.uniformColors (linearOf st index)).map packedU32ToRgba
  else none

/-- `pixelToTileIndex(x, y)`: floor division of the pixel coordinates by the
tile size (`Math.floor` of a JS division). -/
def pixelToTileIndex (st : TilesState) (x y : Int) : TileIndex :=
  { row := Int.fdiv y (st.tileSize : Int), col := Int.fdiv x (st.tileSize : Int) }

/-- `getTileBounds(index)`: origin `(col·tileSize, row·tileSize)` and size
`tileSize × tileSize` — the size is not clamped to the buffer. -/
def getTileBounds (st : TilesState) (index : TileIndex) : TileBounds :=
  { x := index.col * (st.tileSize : Int)
    y := index.row * (st.tileSize : Int)
    width := (st.tileSize : Int)
    height := (st.tileSize : Int) }

/-- `getTileInfo(index)`. -/
def getTileInfo (st : TilesState) (index : TileIndex) : TileInfo :=
  { index
    bounds := getTileBounds st index
    isDirty := isDirty st index
    isUniform := isUniform st index
    uniformColor := getUniformColor st index }

/-- `markDirtyByPixel(x, y)`: set the dirty flag of the containing tile, and
drop its uniform marking if it had one. -/
def markDirtyByPixel (st : TilesState) (x y : Int) : TilesState :=
  let index := pixelToTileIndex st x y
  let st1 := setDirty st index true
  if isUniform st1 index then setUniform st1 index false none else st1

/-- `clearAllDirty()`. -/
def clearAllDirty (st : TilesState) : TilesState :=
  { st with dirtyFlags := List.replicate st.dirtyFlags.length 0 }

/-- `setAllDirty()`: fill with `0xffffffff`, then clear the excess bits of
the last word so that bits beyond `totalTiles` stay zero. -/
def setAllDirty (st : TilesState) : TilesState :=
  let filled := List.replicate st.dirtyFlags.length 4294967295
  let excess := st.totalTiles % 32
  let flags :=
    if excess > 0 then
      filled.set (filled.length - 1) (4294967295 &&& ((1 <<< excess) - 1))
    else filled
  { st with dirtyFlags := flags }

/-- An inclusive integer range `[a, b]` as a list, in increasing order
(the iteration space of a JS `for (let i = a; i <= b; i++)` loop). -/
def intRangeIncl (a b : Int) : List Int :=
  (List.range (b + 1 - a).toNat).map (fun (i : Nat) => a + (i : Int))

/-- `fillTile(tileIndex, color)`: writes `color` to every pixel of the tile
rectangle that lies inside the buffer, marks the tile uniform with that
color and dirty, and returns the previous uniform color.  Invalid indices
return `undefined` and change nothing. -/
def fillTile (buf : PixelBuffer) (st : TilesState) (index : TileIndex)
    (color : RGBA) : PixelBuffer × TilesState × Option RGBA :=
  if isValidTileIndex st index then
    let previousColor := getUniformColor st index
    let bounds := getTileBounds st index
    let buf1 :=
      (intRangeIncl 0 (bounds.height - 1)).foldl (fun b ty =>
        (intRangeIncl 0 (bounds.width - 1)).foldl (fun b tx =>
          let x := bounds.x + tx
          let y := bounds.y + ty
          if b.isInBounds x y then (b.set x y color).2 else b) b) buf
    let st1 := setUniform st index true (some color)
    let st2 := setDirty st1 index true
    (buf1, st2, previousColor)
  else (buf, st, none)

/-- The scan loop of `detectTileUniformity`: walk the in-bounds pixels of
the tile in row-major order, tracking the first color seen; `none` means a
mismatching pixel was found (the source returns `false` early without
touching any state). -/
def scanUniform (buf : PixelBuffer) : List (Int × Int) → Option RGBA →
    Option (Option RGBA)
  | [], first => some first
  | (x, y) :: rest, first =>
      if buf.isInBounds x y then
        let c := buf.get x y
        match first with
        | none => scanUniform buf rest (some c)
        | some f => if c = f then scanUniform buf rest (some f) else none
      else scanUniform buf rest first

/-- The row-major pixel coordinates of a tile's (unclamped) rectangle. -/
def tileCoords (st : TilesState) (index : TileIndex) : List (Int × Int) :=
  let bounds := getTileBounds st index
  ((intRangeIncl 0 (bounds.height - 1)).map (fun ty =>
    (intRangeIncl 0 (bounds.width - 1)).map (fun tx =>
      (bounds.x + tx, bounds.y + ty)))).flatten

/-- `detectTileUniformity(tileIndex)`: samples the buffer; on success with at
least one in-bounds pixel, records the detected uniform color. -/
def detectTileUniformity (buf : PixelBuffer) (st : TilesState)
    (index : TileIndex) : TilesState × Bool :=
  if isValidTileIndex st index then
    match scanUniform buf (tileCoords st index) none with
    | none => (st, false)
    | some none => (st, true)
    | some (some first) => (setUniform st index true (some first), true)
  else (st, false)

/-- `resize(newWidth, newHeight)` — translated statement for statement.  The
source recomputes the geometry and **reallocates both bitsets to zeroed
arrays first**, and only then loops over the overlapping indices copying
from `getTileInfo`, which reads the freshly zeroed arrays. -/
def resize (st : TilesState) (newWidth newHeight : Nat) : TilesState :=
  let oldCols := st.cols
  let oldRows := st.rows
  let cols := ceilDiv newWidth st.tileSize
  let rows := ceilDiv newHeight st.tileSize
  let totalTiles := rows * cols
  let flagArraySize := ceilDiv totalTiles 32
  let st1 : TilesState :=
    { st with cols, rows, totalTiles
              dirtyFlags := List.replicate flagArraySize 0
              uniformFlags := List.replicate flagArraySize 0 }
  let minRows := min oldRows rows
  let minCols := min oldCols cols
  (List.range minRows).foldl (fun s row =>
    (List.range minCols).foldl (fun s col =>
      let index : TileIndex := { row := (row : Int), col := (col : Int) }
      let oldInfo := getTileInfo s index
      let s1 := if oldInfo.isDirty then setDirty s index true else s
      if oldInfo.isUniform && oldInfo.uniformColor.isSome then
        setUniform s1 index true oldInfo.uniformColor
      else s1) s) st1

end Tiles

/-! ## Anvil facade (source `Anvil.ts`)

The facade wires the pixel buffer, the tiles controller and the diffs
controller.  Batch mode (`beginBatch`/`endBatch`) is out of scope here:
`_batchDepth` is always `0`, so `setPixel` is embedded on its non-batch
path.  Exceptions are modelled with `Except`. -/

instance {ε α : Type} [DecidableEq ε] [DecidableEq α] :
    DecidableEq (Except ε α) := fun x y =>
  match x, y with
  | .ok a, .ok b =>
      if h : a = b then isTrue (by rw [h]) else isFalse (by simp [h])
  | .error a, .error b =>
      if h : a = b then isTrue (by rw [h]) else isFalse (by simp [h])
  | .ok _, .error _ => isFalse (by simp)
  | .error _, .ok _ => isFalse (by simp)

/-- The state owned by one `Anvil` instance. -/
structure AnvilState where
  buffer : PixelBuffer
  tiles : TilesState
  diffs : PendingDiffs
deriving DecidableEq

/-- `applyPatch`'s direction argument. -/
inductive Mode where
  | undo
  | redo
deriving DecidableEq

namespace Facade

open Tiles Diffs

/-- The constructor `new Anvil(width, height, tileSize)`: an all-zero
buffer, a fresh tile grid, zero-initialized pending diffs. -/
def mkAnvil (width height tileSize : Nat) : AnvilState :=
  { buffer := { width, height, data := List.replicate (width * height * 4) 0 }
    tiles := mkTiles width height tileSize
    diffs := Diffs.emptyPending }

/-- `getWidth()` as a JS number. -/
def getWidth (st : AnvilState) : Int := (st.buffer.width : Int)

/-- `getHeight()` as a JS number. -/
def getHeight (st : AnvilState) : Int := (st.buffer.height : Int)

/-- `getPixel(x, y)`: throws on out-of-bounds coordinates. -/
def getPixelE (st : AnvilState) (x y : Int) : Except AnvilErr RGBA :=
  if st.buffer.isInBounds x y then .ok (st.buffer.get x y) else .error .oob

/-- `setPixel(x, y, color)` (non-batch path): bounds check (throws
`OutOfBounds`), read the old color, write the new one, mark the containing
tile dirty, record `{x, y, color: oldColor}` as a pending pixel diff, and
re-detect the tile's uniformity. -/
def setPixel (st : AnvilState) (x y : Int) (color : RGBA) :
    Except AnvilErr AnvilState := do
  if !(st.buffer.isInBounds x y) then
    .error .oob
  else
    let oldColor := st.buffer.get x y
    let buf := (st.buffer.set x y color).2
    let tiles1 := markDirtyByPixel st.tiles x y
    let diffs1 := addPixel st.diffs { x, y, color := oldColor }
    let tileIndex := pixelToTileIndex tiles1 x y
    let (tiles2, _) := detectTileUniformity buf tiles1 tileIndex
    .ok { buffer := buf, tiles := tiles2, diffs := diffs1 }

/-- `fillRect(x, y, width, height, color)`: iterate the tiles touched by the
rectangle; a tile completely covered by the rectangle takes the bulk
`fillTile` path and records a tile-fill diff (with the tile's previous
uniform color, defaulted to transparent black), a partially covered tile is
filled pixel by pixel through `setPixel`. -/
def fillRect (st : AnvilState) (x y width height : Int) (color : RGBA) :
    Except AnvilErr AnvilState :=
  if width ≤ 0 ∨ height ≤ 0 then .ok st else
  let ts : Int := (st.tiles.tileSize : Int)
  let startTileX := Int.fdiv x ts
  let startTileY := Int.fdiv y ts
  let endTileX := Int.fdiv (x + width - 1) ts
  let endTileY := Int.fdiv (y + height - 1) ts
  let tilesWide : Int := (ceilDiv st.buffer.width st.tiles.tileSize : Nat)
  let tilesHigh : Int := (ceilDiv st.buffer.height st.tiles.tileSize : Nat)
  (intRangeIncl startTileY endTileY).foldlM (fun st0 tileY =>
    (intRangeIncl startTileX endTileX).foldlM (fun st1 tileX =>
      if tileX ≥ tilesWide ∨ tileY ≥ tilesHigh then .ok st1 else
      let tileStartX := tileX * ts
      let tileStartY := tileY * ts
      let tileEndX := min (tileStartX + ts) (getWidth st1)
      let tileEndY := min (tileStartY + ts) (getHeight st1)
      if x ≤ tileStartX ∧ y ≤ tileStartY ∧
         x + width ≥ tileEndX ∧ y + height ≥ tileEndY then
        let tileIndex : TileIndex := { row := tileY, col := tileX }
        let oldColor := (getTileInfo st1.tiles tileIndex).uniformColor.getD
          { r := 0, g := 0, b := 0, a := 0 }
        let (buf, tl, _) := fillTile st1.buffer st1.tiles tileIndex color
        .ok { buffer := buf, tiles := tl
              diffs := addTileFill st1.diffs
                { tileIndex, before := some oldColor, after := color } }
      else
        (intRangeIncl (max y tileStartY) (min (y + height) tileEndY - 1)).foldlM
          (fun st2 py =>
            (intRangeIncl (max x tileStartX) (min (x + width) tileEndX - 1)).foldlM
              (fun st3 px => setPixel st3 px py color) st2) st1)
      st0) st

/-- `replaceBuffer(buffer)` (without the resize branch, which `applyPatch`
never takes): validate the length, copy the bytes in, discard pending
diffs, set all tiles dirty. -/
def replaceBuffer (st : AnvilState) (newData : List Nat) :
    Except AnvilErr AnvilState :=
  if newData.length ≠ st.buffer.width * st.buffer.height * 4 then
    .error .bufSizeMismatch
  else
    .ok { buffer := { st.buffer with data := newData }
          tiles := setAllDirty st.tiles
          diffs := Diffs.emptyPending }

/-- `l.subarray(a, a + len)` as a list. -/
def listSlice (l : List Nat) (a len : Nat) : List Nat := (l.drop a).take len

/-- `dst.set(src, offset)` as a list splice. -/
def listWrite (dst : List Nat) (offset : Nat) (src : List Nat) : List Nat :=
  dst.take offset ++ src ++ dst.drop (offset + src.length)

/-- `getPartialBuffer(boundBox)`: read the rectangle row by row, clamping
each row's copy to the buffer horizontally and skipping rows outside it;
uncovered result bytes stay zero. -/
def getPartialBuffer (st : AnvilState) (bb : BoundBox) : List Nat :=
  let w := bb.width
  let h := bb.height
  let result := List.replicate (w * h * 4).toNat 0
  if w > 0 ∧ h > 0 then
    (intRangeIncl 0 (h - 1)).foldl (fun result row =>
      let sy := bb.y + row
      if sy < 0 ∨ sy ≥ getHeight st then result else
      let dstOffset := row * w * 4
      let srcOffset := (sy * getWidth st + bb.x) * 4
      let copyW := if bb.x < 0 then w + bb.x else w
      let srcXOffset := if bb.x < 0 then (-bb.x) * 4 else 0
      let copyW := if bb.x + copyW > getWidth st then getWidth st - bb.x else copyW
      if copyW ≤ 0 then result else
      listWrite result (dstOffset + srcXOffset).toNat
        (listSlice st.buffer.data (srcOffset + srcXOffset).toNat (copyW * 4).toNat))
      result
  else result

/-- `setPartialBuffer(boundBox, source)`: write the rectangle row by row
with the same clamping as `getPartialBuffer`. -/
def setPartialBuffer (st : AnvilState) (bb : BoundBox) (src : List Nat) :
    AnvilState :=
  let w := bb.width
  let h := bb.height
  if w > 0 ∧ h > 0 then
    let data :=
      (intRangeIncl 0 (h - 1)).foldl (fun data row =>
        let sy := bb.y + row
        if sy < 0 ∨ sy ≥ getHeight st then data else
        let srcOffset := row * w * 4
        let dstOffset := (sy * getWidth st + bb.x) * 4
        let copyW := if bb.x < 0 then w + bb.x else w
        let srcXOffset := if bb.x < 0 then (-bb.x) * 4 else 0
        let copyW := if bb.x + copyW > getWidth st then getWidth st - bb.x else copyW
        if copyW ≤ 0 then data else
        listWrite data (dstOffset + srcXOffset).toNat
          (listSlice src (srcOffset + srcXOffset).toNat (copyW * 4).toNat))
        st.buffer.data
    { st with buffer := { st.buffer with data } }
  else st

/-- `flush()` on the facade: flush the diffs controller (which may throw,
see `packPending`) and clear all dirty flags. -/
def anvilFlush (c : ImageCodec) (st : AnvilState) :
    Except AnvilErr (AnvilState × Option PackedDiffs) := do
  let (patch, diffs1) ← Diffs.flush c st.diffs
  .ok ({ st with diffs := diffs1, tiles := clearAllDirty st.tiles }, patch)

/-- The whole-buffer stage of `applyPatch`: decode the patch payload, encode
the current buffer, swap them (the patch is rewritten in place). -/
def stageWhole (c : ImageCodec) (sp : AnvilState × PackedDiffs) :
    Except AnvilErr (AnvilState × PackedDiffs) :=
  match sp.2.whole with
  | some w => do
      let rawBuffer := c.webpToRaw w.swapBufferWebp (getWidth sp.1) (getHeight sp.1)
      let currentBuffer := c.rawToWebp sp.1.buffer.data (getWidth sp.1) (getHeight sp.1)
      let st1 ← replaceBuffer sp.1 rawBuffer
      .ok (st1, { sp.2 with whole := some { w with swapBufferWebp := currentBuffer } })
  | none => .ok sp

/-- The partial-rectangle stage of `applyPatch`. -/
def stagePartial (c : ImageCodec) (sp : AnvilState × PackedDiffs) :
    Except AnvilErr (AnvilState × PackedDiffs) :=
  match sp.2.prtl with
  | some p => do
      let rawBuffer := c.webpToRaw p.swapBufferWebp p.boundBox.width p.boundBox.height
      let currentPartial := getPartialBuffer sp.1 p.boundBox
      let currentBuffer := c.rawToWebp currentPartial p.boundBox.width p.boundBox.height
      let st1 := setPartialBuffer sp.1 p.boundBox rawBuffer
      .ok (st1, { sp.2 with prtl := some { p with swapBufferWebp := currentBuffer } })
  | none => .ok sp

/-- The tile-fill stage of `applyPatch`: for each entry pick `before`
(defaulted to transparent `0`) on undo and `after` on redo, unpack the
channels with the JS shift/mask expressions, and `fillRect` the tile's
rectangle. -/
def stageTiles (mode : Mode) (sp : AnvilState × PackedDiffs) :
    Except AnvilErr (AnvilState × PackedDiffs) := do
  let st1 ← (sp.2.tiles.getD []).foldlM (fun s t =>
    let packed : Int := match mode with
      | .undo => t.before.getD 0
      | .redo => t.after
    let r := (jsAnd (jsShrS packed 16) 255).toNat
    let g := (jsAnd (jsShrS packed 8) 255).toNat
    let b := (jsAnd packed 255).toNat
    let a := (jsAnd (jsShrU packed 24) 255).toNat
    let tileSize : Int := (s.tiles.tileSize : Int)
    let ox := t.tileIndex.col * tileSize
    let oy := t.tileIndex.row * tileSize
    fillRect s ox oy tileSize tileSize { r, g, b, a }) sp.1
  .ok (st1, sp.2)

/-- The pixel stage of `applyPatch`: for each entry, in order, read the
current color, write the entry's color, and rewrite the entry with the
packed previous color. -/
def stagePixels (sp : AnvilState × PackedDiffs) :
    Except AnvilErr (AnvilState × PackedDiffs) :=
  match sp.2.pixels with
  | some ps => do
      let (st1, newEntries) ← ps.foldlM (fun (acc : AnvilState × List PackedPixelPatchData) p => do
        let colorUnpacked := packedU32ToRgba p.color
        let swapColor ← getPixelE acc.1 p.x p.y
        let st1 ← setPixel acc.1 p.x p.y colorUnpacked
        .ok (st1, acc.2 ++ [{ x := p.x, y := p.y, color := rgbaToPackedU32 swapColor }]))
        (sp.1, [])
      .ok (st1, { sp.2 with pixels := some newEntries })
  | none => .ok sp

/-- The trailing `this.flush(); this.tilesController.setAllDirty();` of
`applyPatch` (the flushed patch is discarded). -/
def stageFinish (c : ImageCodec) (sp : AnvilState × PackedDiffs) :
    Except AnvilErr (AnvilState × PackedDiffs) := do
  let (st1, _) ← anvilFlush c sp.1
  .ok ({ st1 with tiles := setAllDirty st1.tiles }, sp.2)

/-- `applyPatch(patch, mode)`: whole, then partial, then tile fills, then
pixels, then a flush of the diffs re-recorded during application, then mark
every tile dirty.  Returns the final state together with the rewritten
patch. -/
def applyPatch (c : ImageCodec) (st : AnvilState) (patch : PackedDiffs)
    (mode : Mode) : Except AnvilErr (AnvilState × PackedDiffs) := do
  let sp1 ← stageWhole c (st, patch)
  let sp2 ← stagePartial c sp1
  let sp3 ← stageTiles mode sp2
  let sp4 ← stagePixels sp3
  stageFinish c sp4

end Facade

/-! ## Theorems -/

open Diffs Tiles Facade

/-- C5: Out-of-bounds pixel access is safe and inert: for every coordinate
outside the buffer, `PixelBuffer.get` returns transparent black `(0,0,0,0)`
with no side effect, and `PixelBuffer.set` returns `false` and leaves every
byte of the buffer unchanged. -/
theorem C5_out_of_bounds_access_safe (b : PixelBuffer) (x y : Int) (c : RGBA)
    (h : b.isInBounds x y = false) :
    b.get x y = ⟨0, 0, 0, 0⟩ ∧ (b.set x y c).1 = false ∧ (b.set x y c).2 = b := by
  unfold PixelBuffer.get PixelBuffer.set
  rw [h]
  simp

theorem C5_witness :
    ((⟨2, 2, List.replicate 16 7⟩ : PixelBuffer).isInBounds 2 0 = false) ∧
    ((⟨2, 2, List.replicate 16 7⟩ : PixelBuffer).get 2 0 = ⟨0, 0, 0, 0⟩ ∧
      ((⟨2, 2, List.replicate 16 7⟩ : PixelBuffer).set 2 0 ⟨1, 2, 3, 4⟩).1 = false ∧
      ((⟨2, 2, List.replicate 16 7⟩ : PixelBuffer).set 2 0 ⟨1, 2, 3, 4⟩).2 =
        ⟨2, 2, List.replicate 16 7⟩) :=
  ⟨by decide, C5_out_of_bounds_access_safe _ 2 0 ⟨1, 2, 3, 4⟩ (by decide)⟩

/-- Reading an index just written by `List.set`. -/
theorem getD_set_self {l : List Nat} {i : Nat} (a : Nat) (h : i < l.length) :
    (l.set i a).getD i 0 = a := by
  simp [List.getD_eq_getElem?_getD, List.getElem?_set_self h]

/-- Reading an index distinct from the one written by `List.set`. -/
theorem getD_set_ne {l : List Nat} {i j : Nat} (h : i ≠ j) (a : Nat) :
    (l.set i a).getD j 0 = l.getD j 0 := by
  simp [List.getD_eq_getElem?_getD, List.getElem?_set_ne h]

/-- The byte index of an in-bounds pixel addresses four bytes inside a
well-formed buffer. -/
theorem pixelIdx_add_three_lt (b : PixelBuffer) (x y : Int)
    (hwf : b.WF) (hin : b.isInBounds x y = true) :
    b.pixelIdx x y + 3 < b.data.length := by
  unfold PixelBuffer.isInBounds at hin
  simp only [Bool.and_eq_true, decide_eq_true_eq] at hin
  obtain ⟨⟨⟨hx0, hxw⟩, hy0⟩, hyh⟩ := hin
  have hxw' : x.toNat < b.width := by omega
  have hyh' : y.toNat < b.height := by omega
  have key : y.toNat * b.width + x.toNat < b.width * b.height := by
    calc y.toNat * b.width + x.toNat < y.toNat * b.width + b.width := by omega
    _ = (y.toNat + 1) * b.width := by ring
    _ ≤ b.height * b.width := Nat.mul_le_mul_right _ (by omega)
    _ = b.width * b.height := Nat.mul_comm _ _
  unfold PixelBuffer.WF at hwf
  unfold PixelBuffer.pixelIdx
  omega

/-- Core specification of `PixelBuffer.set` at an in-bounds coordinate:
the written color reads back, and the returned flag says whether the stored
color differed. -/
theorem set_spec (b : PixelBuffer) (x y : Int)
    (c : RGBA) (hwf : b.WF) (hin : b.isInBounds x y = true)
    (hr : c.r ≤ 255) (hg : c.g ≤ 255) (hbb : c.b ≤ 255) (ha : c.a ≤ 255) :
    ((b.set x y c).2.get x y = c) ∧
    ((b.set x y c).1 = true ↔ b.get x y ≠ c) := by
  have hlen := pixelIdx_add_three_lt b x y hwf hin
  set i := b.pixelIdx x y with hi
  have hget : b.get x y =
      ⟨b.data.getD i 0, b.data.getD (i+1) 0, b.data.getD (i+2) 0, b.data.getD (i+3) 0⟩ := by
    unfold PixelBuffer.get
    rw [hin]
    simp
  by_cases hch : b.data.getD i 0 = c.r ∧ b.data.getD (i+1) 0 = c.g ∧
      b.data.getD (i+2) 0 = c.b ∧ b.data.getD (i+3) 0 = c.a
  · -- nothing changes: `set` reports `false` and the buffer is untouched
    have hsplit : b.set x y c = (false, b) := by
      unfold PixelBuffer.set
      rw [hin]
      simp only [if_true]
      have : (!(b.data.getD i 0 == c.r) || !(b.data.getD (i+1) 0 == c.g)
          || !(b.data.getD (i+2) 0 == c.b) || !(b.data.getD (i+3) 0 == c.a)) = false := by
        have hch' := hch
        simp only [List.getD_eq_getElem?_getD] at hch'
        simp [hch'.1, hch'.2.1, hch'.2.2.1, hch'.2.2.2]
      rw [← hi, this]
      simp
    rw [hsplit]
    constructor
    · rw [hget]
      cases c
      simp_all
    · constructor
      · intro hfalse
        exact absurd hfalse (by simp)
      · intro hne
        exfalso
        apply hne
        rw [hget]
        cases c
        simp_all
  · -- some channel differs: the bytes are written and `set` reports `true`
    have hchanged : (!(b.data.getD i 0 == c.r) || !(b.data.getD (i+1) 0 == c.g)
        || !(b.data.getD (i+2) 0 == c.b) || !(b.data.getD (i+3) 0 == c.a)) = true := by
      simp only [Bool.or_eq_true, Bool.not_eq_true', beq_eq_false_iff_ne, ne_eq]
      by_contra hcon
      push_neg at hcon
      exact hch ⟨hcon.1.1.1, hcon.1.1.2, hcon.1.2, hcon.2⟩
    have hsplit : b.set x y c = (true,
        { b with data := ((((b.data.set i (PixelBuffer.clampByte c.r)).set (i+1)
            (PixelBuffer.clampByte c.g)).set (i+2) (PixelBuffer.clampByte c.b)).set
            (i+3) (PixelBuffer.clampByte c.a)) }) := by
      unfold PixelBuffer.set
      rw [hin]
      simp only [if_true]
      rw [← hi, hchanged]
      simp
    rw [hsplit]
    constructor
    · -- the round-trip read
      have hin' : ({ b with data := ((((b.data.set i (PixelBuffer.clampByte c.r)).set (i+1)
            (PixelBuffer.clampByte c.g)).set (i+2) (PixelBuffer.clampByte c.b)).set
            (i+3) (PixelBuffer.clampByte c.a)) } : PixelBuffer).isInBounds x y = true := hin
      unfold PixelBuffer.get
      rw [hin']
      have hidx : ({ b with data := ((((b.data.set i (PixelBuffer.clampByte c.r)).set (i+1)
            (PixelBuffer.clampByte c.g)).set (i+2) (PixelBuffer.clampByte c.b)).set
            (i+3) (PixelBuffer.clampByte c.a)) } : PixelBuffer).pixelIdx x y = i := hi.symm
      simp only [hidx]
      have l0 : i < b.data.length := by omega
      have l1 : i + 1 < (b.data.set i (PixelBuffer.clampByte c.r)).length := by
        simp [List.length_set]; omega
      have l2 : i + 2 < ((b.data.set i (PixelBuffer.clampByte c.r)).set (i+1)
          (PixelBuffer.clampByte c.g)).length := by
        simp [List.length_set]; omega
      have l3 : i + 3 < (((b.data.set i (PixelBuffer.clampByte c.r)).set (i+1)
          (PixelBuffer.clampByte c.g)).set (i+2) (PixelBuffer.clampByte c.b)).length := by
        simp [List.length_set]; omega
      have gr : ((((b.data.set i (PixelBuffer.clampByte c.r)).set (i+1)
            (PixelBuffer.clampByte c.g)).set (i+2) (PixelBuffer.clampByte c.b)).set
            (i+3) (PixelBuffer.clampByte c.a)).getD i 0 = PixelBuffer.clampByte c.r := by
        rw [getD_set_ne (by omega), getD_set_ne (by omega), getD_set_ne (by omega),
          getD_set_self _ l0]
      have gg : ((((b.data.set i (PixelBuffer.clampByte c.r)).set (i+1)
            (PixelBuffer.clampByte c.g)).set (i+2) (PixelBuffer.clampByte c.b)).set
            (i+3) (PixelBuffer.clampByte c.a)).getD (i+1) 0 = PixelBuffer.clampByte c.g := by
        rw [getD_set_ne (by omega), getD_set_ne (by omega), getD_set_self _ l1]
      have gb : ((((b.data.set i (PixelBuffer.clampByte c.r)).set (i+1)
            (PixelBuffer.clampByte c.g)).set (i+2) (PixelBuffer.clampByte c.b)).set
            (i+3) (PixelBuffer.clampByte c.a)).getD (i+2) 0 = PixelBuffer.clampByte c.b := by
        rw [getD_set_ne (by omega), getD_set_self _ l2]
      have ga : ((((b.data.set i (PixelBuffer.clampByte c.r)).set (i+1)
            (PixelBuffer.clampByte c.g)).set (i+2) (PixelBuffer.clampByte c.b)).set
            (i+3) (PixelBuffer.clampByte c.a)).getD (i+3) 0 = PixelBuffer.clampByte c.a := by
        rw [getD_set_self _ l3]
      simp only [gr, gg, gb, ga, PixelBuffer.clampByte]
      cases c
      simp_all [Nat.min_eq_left]
    · -- `set` returned `true`, and indeed the stored color differed
      simp only [true_iff]
      rw [hget]
      cases c with
      | mk r g b a =>
        simp only [ne_eq, RGBA.mk.injEq, not_and]
        intro h1 h2 h3
        simp_all

/-- C8: `addPartial` fails with `PartialBufferSizeMismatch` exactly when the
swap buffer's length differs from `boundBox.width * boundBox.height * 4`,
and a failing call leaves the pending-diff state (pixels, tileFills,
partial, whole) exactly as it was: the validation throws before any field
is written. -/
theorem C8_addPartial_validation_atomic (d : PendingDiffs) (p : PartialPatchData) :
    ((Diffs.addPartial d p).2 = some AnvilErr.partSizeMismatch ↔
      (p.swapBuffer.length : Int) ≠ p.boundBox.width * p.boundBox.height * 4) ∧
    ((Diffs.addPartial d p).2 ≠ none → (Diffs.addPartial d p).1 = d) := by
  by_cases h : (p.swapBuffer.length : Int) = p.boundBox.width * p.boundBox.height * 4 <;>
    simp [Diffs.addPartial, h]

theorem C8_witness :
    (Diffs.addPartial Diffs.emptyPending ⟨⟨0, 0, 1, 1⟩, [1, 2, 3]⟩).1 =
      Diffs.emptyPending :=
  (C8_addPartial_validation_atomic Diffs.emptyPending ⟨⟨0, 0, 1, 1⟩, [1, 2, 3]⟩).2
    (by decide)

/-- C3, counterexample: an `addPartial` issued while a whole is already
pending does **not** leave the pending state unchanged — it installs the
partial, so the state ends up with both `whole` and `partial` set, violating
the claimed invariant that whenever `whole` is set `partial` is unset. -/
theorem C3_counterexample_whole_then_partial :
    ((Diffs.addPartial (Diffs.addWhole Diffs.emptyPending ⟨1, 1, [0, 0, 0, 0]⟩)
        ⟨⟨0, 0, 1, 1⟩, [1, 2, 3, 4]⟩).1.whole = some ⟨1, 1, [0, 0, 0, 0]⟩) ∧
    ((Diffs.addPartial (Diffs.addWhole Diffs.emptyPending ⟨1, 1, [0, 0, 0, 0]⟩)
        ⟨⟨0, 0, 1, 1⟩, [1, 2, 3, 4]⟩).1.prtl = some ⟨⟨0, 0, 1, 1⟩, [1, 2, 3, 4]⟩) ∧
    ((Diffs.addPartial (Diffs.addWhole Diffs.emptyPending ⟨1, 1, [0, 0, 0, 0]⟩)
        ⟨⟨0, 0, 1, 1⟩, [1, 2, 3, 4]⟩).1 ≠
      Diffs.addWhole Diffs.emptyPending ⟨1, 1, [0, 0, 0, 0]⟩) := by
  decide

/-- C3, amended: the coercion holds at the moment of ingestion of a coarser
kind — a (valid) `addPartial` clears the pending pixels and tile fills and
installs the partial, and `addWhole` additionally clears the pending
partial — but `addPartial` does not consult a pending whole (the whole is
left set alongside the new partial rather than the partial being ignored),
and a later `addPixel` appends unconditionally, so the lattice invariant is
not maintained across arbitrary call sequences. -/
theorem C3_coercion_post_state (d : PendingDiffs) (w : WholePatchData)
    (p : PartialPatchData) (q : PixelPatchData)
    (hp : (p.swapBuffer.length : Int) = p.boundBox.width * p.boundBox.height * 4) :
    (Diffs.addWhole d w).whole = some w ∧
    (Diffs.addWhole d w).prtl = none ∧
    (Diffs.addWhole d w).pixels = [] ∧
    (Diffs.addWhole d w).tileFills = [] ∧
    (Diffs.addPartial d p).1.prtl = some p ∧
    (Diffs.addPartial d p).1.pixels = [] ∧
    (Diffs.addPartial d p).1.tileFills = [] ∧
    (Diffs.addPartial d p).1.whole = d.whole ∧
    (Diffs.addPixel d q).pixels = d.pixels ++ [q] ∧
    (Diffs.addPixel d q).prtl = d.prtl ∧
    (Diffs.addPixel d q).whole = d.whole := by
  unfold Diffs.addWhole Diffs.addPartial Diffs.addPixel
  simp [hp]

theorem C3_witness :
    ((([1, 2, 3, 4] : List Nat).length : Int) = (1 : Int) * 1 * 4) ∧
    (Diffs.addPartial (Diffs.addWhole Diffs.emptyPending ⟨1, 1, [0, 0, 0, 0]⟩)
      ⟨⟨0, 0, 1, 1⟩, [1, 2, 3, 4]⟩).1.prtl = some ⟨⟨0, 0, 1, 1⟩, [1, 2, 3, 4]⟩ :=
  ⟨by decide,
    (C3_coercion_post_state (Diffs.addWhole Diffs.emptyPending ⟨1, 1, [0, 0, 0, 0]⟩)
      ⟨1, 1, [0, 0, 0, 0]⟩ ⟨⟨0, 0, 1, 1⟩, [1, 2, 3, 4]⟩ ⟨0, 0, ⟨0, 0, 0, 0⟩⟩
      (by decide)).2.2.2.2.1⟩

/-- C4, counterexample: immediately after `addPartial` the stored pending
partial is the **raw, unpacked** input (not a WebP-encoded `PackedPartial`),
and the packing step performed at flush time applies `rawToWebp` (shown with
an admissible round-tripping codec for which encoding is not the identity),
so packing at flush is not the identity on the partial field. -/
theorem C4_counterexample_packing_not_identity :
    ((Diffs.addPartial Diffs.emptyPending ⟨⟨0, 0, 1, 1⟩, [1, 2, 3, 4]⟩).1.prtl =
      some ⟨⟨0, 0, 1, 1⟩, [1, 2, 3, 4]⟩) ∧
    (consCodec.webpToRaw (consCodec.rawToWebp [1, 2, 3, 4] 1 1) 1 1 = [1, 2, 3, 4]) ∧
    (Diffs.packPending consCodec
        (Diffs.addPartial Diffs.emptyPending ⟨⟨0, 0, 1, 1⟩, [1, 2, 3, 4]⟩).1 =
      .ok { prtl := some ⟨⟨0, 0, 1, 1⟩, [0, 1, 2, 3, 4]⟩ }) ∧
    ([0, 1, 2, 3, 4] ≠ ([1, 2, 3, 4] : List Nat)) := by
  decide

/-- C4, amended: `addPartial` and `addWhole` store the raw, unpacked diff;
the WebP packing via `rawToWebp` happens in `packPending`, i.e. at
`flush`/`previewPatch` time (for any codec, and any pending state whose
pixel list is empty so that packing succeeds). -/
theorem C4_flush_packs_raw_pending (c : ImageCodec) (d : PendingDiffs)
    (p : PartialPatchData) (w : WholePatchData)
    (hpix : d.pixels = [])
    (hp : (p.swapBuffer.length : Int) = p.boundBox.width * p.boundBox.height * 4) :
    (Diffs.addPartial d p).1.prtl = some p ∧
    (Diffs.addWhole d w).whole = some w ∧
    Diffs.packPending c d = .ok
      { pixels := none
        tiles := if d.tileFills.isEmpty then none
                 else some (d.tileFills.map (fun e => Diffs.packTileFill e.2))
        prtl := d.prtl.map (fun q =>
          ⟨q.boundBox, c.rawToWebp q.swapBuffer q.boundBox.width q.boundBox.height⟩)
        whole := d.whole.map (fun v =>
          ⟨v.width, v.height, c.rawToWebp v.swapBuffer (v.width : Int) (v.height : Int)⟩) } := by
  refine ⟨?_, ?_, ?_⟩
  · unfold Diffs.addPartial
    simp [hp]
  · rfl
  · unfold Diffs.packPending
    simp [hpix]

theorem C4_witness :
    (([] : List PixelPatchData) = []) ∧
    ((([1, 2, 3, 4] : List Nat).length : Int) = (1 : Int) * 1 * 4) ∧
    (Diffs.addPartial Diffs.emptyPending ⟨⟨0, 0, 1, 1⟩, [1, 2, 3, 4]⟩).1.prtl =
      some ⟨⟨0, 0, 1, 1⟩, [1, 2, 3, 4]⟩ :=
  ⟨rfl, by decide,
    (C4_flush_packs_raw_pending consCodec Diffs.emptyPending
      ⟨⟨0, 0, 1, 1⟩, [1, 2, 3, 4]⟩ ⟨1, 1, [0, 0, 0, 0]⟩ rfl (by decide)).1⟩

/-- C6: Set/get round-trip and change detection: for an in-bounds
coordinate of a well-formed buffer and a color with `u8` channels,
`get` after `set` returns exactly the written color, and `set` returns
`true` precisely when the written color differs from the stored one in some
channel (`false` when they are already equal). -/
theorem C6_set_get_roundtrip_change_detection (b : PixelBuffer) (x y : Int)
    (c : RGBA) (hwf : b.WF) (hin : b.isInBounds x y = true)
    (hr : c.r ≤ 255) (hg : c.g ≤ 255) (hbb : c.b ≤ 255) (ha : c.a ≤ 255) :
    ((b.set x y c).2.get x y = c) ∧
    ((b.set x y c).1 = true ↔ b.get x y ≠ c) :=
  set_spec b x y c hwf hin hr hg hbb ha

theorem C6_witness :
    ((⟨1, 1, [5, 5, 5, 5]⟩ : PixelBuffer).WF) ∧
    ((⟨1, 1, [5, 5, 5, 5]⟩ : PixelBuffer).isInBounds 0 0 = true) ∧
    ((((⟨1, 1, [5, 5, 5, 5]⟩ : PixelBuffer).set 0 0 ⟨1, 2, 3, 4⟩).2.get 0 0 =
        ⟨1, 2, 3, 4⟩) ∧
      (((⟨1, 1, [5, 5, 5, 5]⟩ : PixelBuffer).set 0 0 ⟨1, 2, 3, 4⟩).1 = true ↔
        (⟨1, 1, [5, 5, 5, 5]⟩ : PixelBuffer).get 0 0 ≠ ⟨1, 2, 3, 4⟩)) :=
  ⟨rfl, by decide,
    C6_set_get_roundtrip_change_detection ⟨1, 1, [5, 5, 5, 5]⟩ 0 0 ⟨1, 2, 3, 4⟩
      rfl (by decide) (by decide) (by decide) (by decide) (by decide)⟩

/-- `set` does not change the buffer's width. -/
theorem set_snd_width (b : PixelBuffer) (x y : Int) (c : RGBA) :
    (b.set x y c).2.width = b.width := by
  unfold PixelBuffer.set
  split
  · dsimp only
    split <;> rfl
  · rfl

/-- `set` does not change the buffer's height. -/
theorem set_snd_height (b : PixelBuffer) (x y : Int) (c : RGBA) :
    (b.set x y c).2.height = b.height := by
  unfold PixelBuffer.set
  split
  · dsimp only
    split <;> rfl
  · rfl

/-- `set` does not change the length of the byte array. -/
theorem set_snd_data_length (b : PixelBuffer) (x y : Int) (c : RGBA) :
    (b.set x y c).2.data.length = b.data.length := by
  unfold PixelBuffer.set
  split
  · dsimp only
    split
    · simp [List.length_set]
    · rfl
  · rfl

/-- `set` preserves well-formedness. -/
theorem set_snd_WF (b : PixelBuffer) (x y : Int) (c : RGBA) (hwf : b.WF) :
    (b.set x y c).2.WF := by
  unfold PixelBuffer.WF
  rw [set_snd_data_length, set_snd_width, set_snd_height]
  exact hwf

/-- `set` does not change the bounds predicate. -/
theorem isInBounds_set (b : PixelBuffer) (x y px py : Int) (c : RGBA) :
    (b.set x y c).2.isInBounds px py = b.isInBounds px py := by
  unfold PixelBuffer.isInBounds
  rw [set_snd_width, set_snd_height]

/-- Row-major linearization is injective on in-range columns. -/
theorem rowMajor_inj {w y1 x1 y2 x2 : Nat} (hx1 : x1 < w) (hx2 : x2 < w)
    (h : y1 * w + x1 = y2 * w + x2) : y1 = y2 ∧ x1 = x2 := by
  rcases Nat.lt_trichotomy y1 y2 with hlt | heq | hgt
  · exfalso
    have hstep : (y1 + 1) * w ≤ y2 * w := Nat.mul_le_mul_right w (by omega)
    have h2 : y1 * w + w = (y1 + 1) * w := by ring
    omega
  · subst heq
    omega
  · exfalso
    have hstep : (y2 + 1) * w ≤ y1 * w := Nat.mul_le_mul_right w (by omega)
    have h2 : y2 * w + w = (y2 + 1) * w := by ring
    omega

/-- Writing one pixel does not change the value read at a different
coordinate. -/
theorem get_set_ne_pixel (b : PixelBuffer) (x y px py : Int) (c : RGBA)
    (hwf : b.WF) (hne : ¬(x = px ∧ y = py)) :
    (b.set x y c).2.get px py = b.get px py := by
  unfold PixelBuffer.set
  by_cases hin : b.isInBounds x y = true
  · rw [if_pos hin]
    dsimp only
    split
    next hch =>
      by_cases hpin : b.isInBounds px py = true
      · -- both pixels in bounds and distinct: the four written bytes are
        -- disjoint from the four read bytes
        have hpin' : ∀ (d : List Nat), ({ b with data := d } : PixelBuffer).isInBounds px py = true := fun _ => hpin
        unfold PixelBuffer.get
        rw [hpin', hpin]
        have hbx := hin
        have hbp := hpin
        unfold PixelBuffer.isInBounds at hbx hbp
        simp only [Bool.and_eq_true, decide_eq_true_eq] at hbx hbp
        obtain ⟨⟨⟨hx0, hxw⟩, hy0⟩, hyh⟩ := hbx
        obtain ⟨⟨⟨hp0, hpw⟩, hq0⟩, hqh⟩ := hbp
        have hlinne : y.toNat * b.width + x.toNat ≠ py.toNat * b.width + px.toNat := by
          intro hcon
          have := rowMajor_inj (by omega) (by omega) hcon
          apply hne
          omega
        have hidx : ∀ k l : Nat, k ≤ 3 → l ≤ 3 →
            b.pixelIdx x y + k ≠ b.pixelIdx px py + l := by
          intro k l hk hl
          unfold PixelBuffer.pixelIdx
          generalize y.toNat * b.width + x.toNat = m at hlinne ⊢
          generalize py.toNat * b.width + px.toNat = m' at hlinne ⊢
          omega
        have hidx' : ∀ l : Nat, l ≤ 3 →
            ((((b.data.set (b.pixelIdx x y) (PixelBuffer.clampByte c.r)).set
              (b.pixelIdx x y + 1) (PixelBuffer.clampByte c.g)).set
              (b.pixelIdx x y + 2) (PixelBuffer.clampByte c.b)).set
              (b.pixelIdx x y + 3) (PixelBuffer.clampByte c.a)).getD
              (b.pixelIdx px py + l) 0 = b.data.getD (b.pixelIdx px py + l) 0 := by
          intro l hl
          rw [getD_set_ne (hidx 3 l (by omega) hl),
            getD_set_ne (hidx 2 l (by omega) hl),
            getD_set_ne (hidx 1 l (by omega) hl)]
          have h0 := hidx 0 l (by omega) hl
          rw [getD_set_ne (by omega)]
        have e0 := hidx' 0 (by omega)
        have e1 := hidx' 1 (by omega)
        have e2 := hidx' 2 (by omega)
        have e3 := hidx' 3 (by omega)
        simp only [Nat.add_zero] at e0
        simp only [show ∀ d : List Nat, ({ b with data := d } : PixelBuffer).pixelIdx px py = b.pixelIdx px py from fun _ => rfl]
        rw [e0, e1, e2, e3]
      · -- read coordinate out of bounds: both reads are transparent black
        have hpinf : b.isInBounds px py = false := by
          cases hbool : b.isInBounds px py
          · rfl
          · exact absurd hbool hpin
        have hpinf' : ∀ (d : List Nat),
            ({ b with data := d } : PixelBuffer).isInBounds px py = false :=
          fun _ => hpinf
        unfold PixelBuffer.get
        dsimp only
        rw [hpinf', hpinf]
        simp
    next hch => rfl
  · rw [if_neg hin]

/-- Membership in an inclusive integer range. -/
theorem mem_intRangeIncl {v a b : Int} : v ∈ intRangeIncl a b ↔ a ≤ v ∧ v ≤ b := by
  unfold intRangeIncl
  constructor
  · intro hmem
    obtain ⟨i, hi, hv⟩ := List.mem_map.mp hmem
    have hi' := List.mem_range.mp hi
    omega
  · intro h
    exact List.mem_map.mpr ⟨(v - a).toNat, List.mem_range.mpr (by omega), by omega⟩

/-- Reading after a batch of clipped single-color writes: a coordinate reads
the written color exactly when it is listed and in bounds; everything else
is untouched. -/
theorem foldl_sets_get (c : RGBA) (hr : c.r ≤ 255) (hg : c.g ≤ 255)
    (hbb : c.b ≤ 255) (ha : c.a ≤ 255) :
    ∀ (coords : List (Int × Int)) (b : PixelBuffer), b.WF → ∀ (px py : Int),
    (coords.foldl (fun bb (p : Int × Int) =>
        if bb.isInBounds p.1 p.2 then (bb.set p.1 p.2 c).2 else bb) b).get px py =
      if (px, py) ∈ coords ∧ b.isInBounds px py = true then c
      else b.get px py := by
  intro coords
  induction coords with
  | nil =>
      intro b hwf px py
      simp
  | cons q rest ih =>
      obtain ⟨qx, qy⟩ := q
      intro b hwf px py
      simp only [List.foldl_cons]
      by_cases hq : b.isInBounds qx qy = true
      · rw [if_pos hq]
        have hwf' : (b.set qx qy c).2.WF := set_snd_WF b qx qy c hwf
        rw [ih _ hwf' px py, isInBounds_set]
        by_cases hqeq : qx = px ∧ qy = py
        · obtain ⟨rfl, rfl⟩ := hqeq
          by_cases hpin : b.isInBounds qx qy = true
          · by_cases hmem : (qx, qy) ∈ rest
            · rw [if_pos ⟨hmem, hpin⟩, if_pos ⟨List.mem_cons_self _ _, hpin⟩]
            · rw [if_neg (by tauto), if_pos ⟨List.mem_cons_self _ _, hpin⟩]
              exact (set_spec b qx qy c hwf hpin hr hg hbb ha).1
          · rw [if_neg (by tauto), if_neg (by tauto)]
            simp [PixelBuffer.get, isInBounds_set, hpin]
        · rw [get_set_ne_pixel b qx qy px py c hwf hqeq]
          have hcond : ((px, py) ∈ rest ∧ b.isInBounds px py = true) ↔
              ((px, py) ∈ (qx, qy) :: rest ∧ b.isInBounds px py = true) := by
            simp only [List.mem_cons, Prod.mk.injEq]
            constructor
            · rintro ⟨h, hb⟩
              exact ⟨Or.inr h, hb⟩
            · rintro ⟨h | h, hb⟩
              · exact absurd ⟨h.1.symm, h.2.symm⟩ hqeq
              · exact ⟨h, hb⟩
          rw [if_congr hcond rfl rfl]
      · rw [if_neg hq]
        rw [ih b hwf px py]
        have hq' : b.isInBounds qx qy = false := by
          cases hbool : b.isInBounds qx qy
          · rfl
          · exact absurd hbool hq
        have hcond : ((px, py) ∈ rest ∧ b.isInBounds px py = true) ↔
            ((px, py) ∈ (qx, qy) :: rest ∧ b.isInBounds px py = true) := by
          simp only [List.mem_cons, Prod.mk.injEq]
          constructor
          · rintro ⟨h, hb⟩
            exact ⟨Or.inr h, hb⟩
          · rintro ⟨h | h, hb⟩
            · exfalso
              obtain ⟨h1, h2⟩ := h
              rw [h1, h2, hq'] at hb
              exact Bool.false_ne_true hb
            · exact ⟨h, hb⟩
        rw [if_congr hcond rfl rfl]

/-- The coordinates enumerated by a tile's rectangle are exactly those of
the (unclamped) `tileSize × tileSize` square at the tile's origin. -/
theorem mem_tileCoords (st : TilesState) (index : TileIndex) (px py : Int) :
    ((px, py) ∈ tileCoords st index) ↔
      (index.col * (st.tileSize : Int) ≤ px ∧
       px < index.col * (st.tileSize : Int) + (st.tileSize : Int) ∧
       index.row * (st.tileSize : Int) ≤ py ∧
       py < index.row * (st.tileSize : Int) + (st.tileSize : Int)) := by
  unfold Tiles.tileCoords Tiles.getTileBounds
  dsimp only
  constructor
  · intro hmem
    obtain ⟨l, hl, hpl⟩ := List.mem_flatten.mp hmem
    obtain ⟨ty, hty, rfl⟩ := List.mem_map.mp hl
    obtain ⟨tx, htx, heq⟩ := List.mem_map.mp hpl
    have h1 := mem_intRangeIncl.mp hty
    have h2 := mem_intRangeIncl.mp htx
    rw [Prod.mk.injEq] at heq
    obtain ⟨hx, hy⟩ := heq
    generalize hX : index.col * ((st.tileSize : Nat) : Int) = X at *
    generalize hY : index.row * ((st.tileSize : Nat) : Int) = Y at *
    omega
  · intro h
    generalize hX : index.col * ((st.tileSize : Nat) : Int) = X at *
    generalize hY : index.row * ((st.tileSize : Nat) : Int) = Y at *
    refine List.mem_flatten.mpr ⟨_, List.mem_map.mpr ⟨py - Y, mem_intRangeIncl.mpr (by omega), rfl⟩, ?_⟩
    exact List.mem_map.mpr ⟨px - X, mem_intRangeIncl.mpr (by omega), by rw [Prod.mk.injEq]; omega⟩

/-- The nested row/column loops of `fillTile` visit exactly the flattened
tile-coordinate list. -/
theorem fillTile_fold_eq (buf : PixelBuffer) (st : TilesState)
    (index : TileIndex) (c : RGBA) :
    ((intRangeIncl 0 ((getTileBounds st index).height - 1)).foldl (fun b ty =>
        (intRangeIncl 0 ((getTileBounds st index).width - 1)).foldl (fun b tx =>
          let x := (getTileBounds st index).x + tx
          let y := (getTileBounds st index).y + ty
          if b.isInBounds x y then (b.set x y c).2 else b) b) buf) =
      (tileCoords st index).foldl (fun bb (p : Int × Int) =>
        if bb.isInBounds p.1 p.2 then (bb.set p.1 p.2 c).2 else bb) buf := by
  unfold Tiles.tileCoords
  rw [List.foldl_flatten]
  simp only [List.foldl_map]

/-- What `fillTile` does to the pixel bytes: every coordinate of the tile's
(unclamped) rectangle that lies **inside the buffer** now reads the fill
color, and every other coordinate is untouched — the clipping to the buffer
happens pixel by pixel at the use site, not in `getTileBounds`. -/
theorem fillTile_get (buf : PixelBuffer) (st : TilesState) (index : TileIndex)
    (c : RGBA) (hwf : buf.WF) (hv : isValidTileIndex st index = true)
    (hr : c.r ≤ 255) (hg : c.g ≤ 255) (hbb : c.b ≤ 255) (ha : c.a ≤ 255)
    (px py : Int) :
    (fillTile buf st index c).1.get px py =
      if (index.col * (st.tileSize : Int) ≤ px ∧
          px < index.col * (st.tileSize : Int) + (st.tileSize : Int) ∧
          index.row * (st.tileSize : Int) ≤ py ∧
          py < index.row * (st.tileSize : Int) + (st.tileSize : Int) ∧
          buf.isInBounds px py = true) then c else buf.get px py := by
  unfold Tiles.fillTile
  rw [if_pos hv]
  dsimp only
  rw [fillTile_fold_eq buf st index c,
    foldl_sets_get c hr hg hbb ha (tileCoords st index) buf hwf px py]
  have hiff : ((px, py) ∈ tileCoords st index ∧ buf.isInBounds px py = true) ↔
      (index.col * (st.tileSize : Int) ≤ px ∧
       px < index.col * (st.tileSize : Int) + (st.tileSize : Int) ∧
       index.row * (st.tileSize : Int) ≤ py ∧
       py < index.row * (st.tileSize : Int) + (st.tileSize : Int) ∧
       buf.isInBounds px py = true) := by
    rw [mem_tileCoords]
    tauto
  rw [if_congr hiff rfl rfl]

/-- Every 32-bit pattern is below `2^32`. -/
theorem uint32_lt (x : Int) : uint32 x < 4294967296 := by
  unfold uint32
  omega

/-- `uint32` is a left inverse of `int32OfPattern` on 32-bit patterns. -/
theorem uint32_int32OfPattern {u : Nat} (h : u < 4294967296) :
    uint32 (int32OfPattern u) = u := by
  unfold uint32 int32OfPattern
  split <;> omega

/-- `uint32` of a small non-negative JS number. -/
theorem uint32_ofNat {n : Nat} (h : n < 4294967296) : uint32 (n : Int) = n := by
  unfold uint32
  omega

/-- The pattern of a JS `|` is the `Nat` bitwise or of the patterns. -/
theorem uint32_jsOr (x y : Int) :
    uint32 (jsOr x y) = (uint32 x) ||| (uint32 y) := by
  unfold jsOr
  apply uint32_int32OfPattern
  have hx := uint32_lt x
  have hy := uint32_lt y
  have h32 : (4294967296 : Nat) = 2 ^ 32 := by norm_num
  rw [h32] at hx hy ⊢
  exact Nat.or_lt_two_pow hx hy

/-- Disjoint bitwise or is addition: or-ing low bits into a number whose low
`n` bits are clear. -/
theorem two_pow_mul_lor_eq_add (n a b : Nat) (hb : b < 2 ^ n) :
    (2 ^ n * a) ||| b = 2 ^ n * a + b := by
  induction n generalizing b with
  | zero =>
      have hb0 : b = 0 := by omega
      subst hb0
      simp
  | succ n ih =>
      have hpow : (2 : Nat) ^ (n + 1) = 2 * 2 ^ n := by ring
      have hdivL : (2 ^ (n + 1) * a) / 2 = 2 ^ n * a := by
        rw [hpow, Nat.mul_assoc, Nat.mul_div_cancel_left _ (by norm_num)]
      have hmodL : (2 ^ (n + 1) * a) % 2 = 0 := by
        rw [hpow, Nat.mul_assoc]
        exact Nat.mul_mod_right 2 _
      have hb2 : b / 2 < 2 ^ n := by
        rw [hpow] at hb
        omega
      have hdiv : ((2 ^ (n + 1) * a) ||| b) / 2 = 2 ^ n * a + b / 2 := by
        rw [Nat.or_div_two, hdivL, ih (b / 2) hb2]
      have hiff := @Nat.or_mod_two_eq_one (2 ^ (n + 1) * a) b
      rw [hmodL] at hiff
      have hmod : ((2 ^ (n + 1) * a) ||| b) % 2 = b % 2 := by omega
      have hcomb := Nat.div_add_mod ((2 ^ (n + 1) * a) ||| b) 2
      rw [hdiv, hmod] at hcomb
      rw [hpow] at *
      generalize hq : 2 ^ n * a = q at *
      have : 2 * 2 ^ n * a = 2 * q := by rw [Nat.mul_assoc, hq]
      omega

/-- The packed form of a `u8` RGBA tuple is the 32-bit pattern
`a·2^24 + r·2^16 + g·2^8 + b`, reinterpreted as a signed 32-bit value. -/
theorem rgbaToPackedU32_eq (c : RGBA) (hr : c.r ≤ 255) (hg : c.g ≤ 255)
    (hb : c.b ≤ 255) (ha : c.a ≤ 255) :
    rgbaToPackedU32 c =
      int32OfPattern (c.a * 16777216 + c.r * 65536 + c.g * 256 + c.b) := by
  obtain ⟨r, g, b, a⟩ := c
  simp only at hr hg hb ha ⊢
  have sh : ∀ (v : Nat) (k : Nat), v ≤ 255 → k ≤ 24 →
      uint32 (jsShl (v : Int) k) = v * 2 ^ k := by
    intro v k hv hk
    unfold jsShl
    have h1 : uint32 (v : Int) = v := uint32_ofNat (by omega)
    rw [h1, Nat.shiftLeft_eq]
    have hk32 : k % 32 = k := Nat.mod_eq_of_lt (by omega)
    rw [hk32]
    have hlt : v * 2 ^ k < 4294967296 := by
      calc v * 2 ^ k ≤ 255 * 2 ^ 24 :=
            Nat.mul_le_mul hv (Nat.pow_le_pow_right (by norm_num) hk)
      _ < 4294967296 := by norm_num
    rw [Nat.mod_eq_of_lt hlt]
    unfold uint32 int32OfPattern
    split <;> omega
  unfold rgbaToPackedU32
  have e3 : uint32 (jsShl (a : Int) 24) = a * 16777216 := by
    have := sh a 24 ha (by norm_num)
    norm_num at this
    exact this
  have e2 : uint32 (jsShl (r : Int) 16) = r * 65536 := by
    have := sh r 16 hr (by norm_num)
    norm_num at this
    exact this
  have e1 : uint32 (jsShl (g : Int) 8) = g * 256 := by
    have := sh g 8 hg (by norm_num)
    norm_num at this
    exact this
  have e0 : uint32 (b : Int) = b := uint32_ofNat (by omega)
  have o1 : uint32 (jsOr (jsShl (a : Int) 24) (jsShl (r : Int) 16)) =
      a * 16777216 + r * 65536 := by
    rw [uint32_jsOr, e3, e2]
    have h := two_pow_mul_lor_eq_add 24 a (r * 65536) (by norm_num; omega)
    norm_num at h
    rw [Nat.mul_comm 16777216 a] at h
    exact h
  have o2 : uint32 (jsOr (jsOr (jsShl (a : Int) 24) (jsShl (r : Int) 16))
      (jsShl (g : Int) 8)) = a * 16777216 + r * 65536 + g * 256 := by
    rw [uint32_jsOr, o1, e1]
    have h := two_pow_mul_lor_eq_add 16 (a * 256 + r) (g * 256) (by norm_num; omega)
    norm_num at h
    have harith : 65536 * (a * 256 + r) = a * 16777216 + r * 65536 := by ring
    rw [harith] at h
    exact h
  show int32OfPattern
      ((uint32 (jsOr (jsOr (jsShl (a : Int) 24) (jsShl (r : Int) 16))
        (jsShl (g : Int) 8))) ||| (uint32 (b : Int))) = _
  rw [o2, e0]
  have h := two_pow_mul_lor_eq_add 8 (a * 65536 + r * 256 + g) b (by norm_num; omega)
  norm_num at h
  have harith : 256 * (a * 65536 + r * 256 + g) =
      a * 16777216 + r * 65536 + g * 256 := by ring
  rw [harith] at h
  rw [h]

/-- `x &&& 255` is `x % 256`. -/
theorem land_255 (x : Nat) : Nat.land x 255 = x % 256 := by
  have h := Nat.and_pow_two_sub_one_eq_mod x 8
  norm_num at h
  exact h

/-- C9: Pixel pack/unpack round-trip: for every RGBA tuple with `u8`
channels, `packedU32ToRgba (rgbaToPackedU32 c) = c`; and the packed form
lays the channels out as `(A<<24)|(R<<16)|(G<<8)|B`, i.e. its 32-bit
pattern is `A·2^24 + R·2^16 + G·2^8 + B`. -/
theorem C9_pack_unpack_roundtrip (c : RGBA) (hr : c.r ≤ 255) (hg : c.g ≤ 255)
    (hb : c.b ≤ 255) (ha : c.a ≤ 255) :
    packedU32ToRgba (rgbaToPackedU32 c) = c ∧
    uint32 (rgbaToPackedU32 c) =
      c.a * 16777216 + c.r * 65536 + c.g * 256 + c.b := by
  have hpack := rgbaToPackedU32_eq c hr hg hb ha
  obtain ⟨r, g, b, a⟩ := c
  simp only at hr hg hb ha hpack ⊢
  set U : Nat := a * 16777216 + r * 65536 + g * 256 + b with hU
  have hUlt : U < 4294967296 := by omega
  have hpat : uint32 (rgbaToPackedU32 ⟨r, g, b, a⟩) = U := by
    rw [hpack]
    exact uint32_int32OfPattern hUlt
  refine ⟨?_, hpat⟩
  unfold packedU32ToRgba
  -- the four channel extractions
  have hshr : ∀ k : Nat, k < 32 →
      jsShrS (rgbaToPackedU32 ⟨r, g, b, a⟩) k = int32OfPattern U / (2 ^ k : Int) := by
    intro k hk
    unfold jsShrS
    rw [hpat, Nat.mod_eq_of_lt hk]
  have extract : ∀ (x : Int), 0 ≤ x → x ≤ 255 → (jsAnd x 255).toNat = x.toNat := by
    intro x h0 h255
    unfold jsAnd
    have hx : uint32 x = x.toNat := by unfold uint32; omega
    have h255' : uint32 (255 : Int) = 255 := uint32_ofNat (by norm_num)
    rw [hx, h255', land_255]
    unfold int32OfPattern
    split <;> omega
  -- blue channel: `packed & 0xff`
  have hblue : (jsAnd (rgbaToPackedU32 ⟨r, g, b, a⟩) 255).toNat = b := by
    unfold jsAnd
    have h255' : uint32 (255 : Int) = 255 := uint32_ofNat (by norm_num)
    rw [hpat, h255', land_255]
    unfold int32OfPattern
    split <;> omega
  -- alpha channel: `(packed >>> 24) & 0xff`
  have halpha : (jsAnd (jsShrU (rgbaToPackedU32 ⟨r, g, b, a⟩) 24) 255).toNat = a := by
    unfold jsShrU
    rw [hpat]
    have h24 : (24 : Nat) % 32 = 24 := by norm_num
    rw [h24, Nat.shiftRight_eq_div_pow]
    have hdiv : U / 2 ^ 24 = a := by norm_num; omega
    rw [hdiv]
    have h := extract (a : Int) (by omega) (by omega)
    omega
  -- red channel: `(packed >> 16) & 0xff`
  have hred : (jsAnd (jsShrS (rgbaToPackedU32 ⟨r, g, b, a⟩) 16) 255).toNat = r := by
    rw [hshr 16 (by norm_num)]
    unfold jsAnd
    have h255' : uint32 (255 : Int) = 255 := uint32_ofNat (by norm_num)
    rw [h255', land_255]
    unfold uint32 int32OfPattern
    norm_num
    split <;> split <;> omega
  -- green channel: `(packed >> 8) & 0xff`
  have hgreen : (jsAnd (jsShrS (rgbaToPackedU32 ⟨r, g, b, a⟩) 8) 255).toNat = g := by
    rw [hshr 8 (by norm_num)]
    unfold jsAnd
    have h255' : uint32 (255 : Int) = 255 := uint32_ofNat (by norm_num)
    rw [h255', land_255]
    unfold uint32 int32OfPattern
    norm_num
    split <;> split <;> omega
  rw [hred, hgreen, hblue, halpha]

theorem C9_witness :
    ((255 : Nat) ≤ 255 ∧ (128 : Nat) ≤ 255 ∧ (64 : Nat) ≤ 255 ∧ (200 : Nat) ≤ 255) ∧
    (packedU32ToRgba (rgbaToPackedU32 ⟨255, 128, 64, 200⟩) = ⟨255, 128, 64, 200⟩ ∧
      uint32 (rgbaToPackedU32 ⟨255, 128, 64, 200⟩) =
        200 * 16777216 + 255 * 65536 + 128 * 256 + 64) :=
  ⟨by decide,
    C9_pack_unpack_roundtrip ⟨255, 128, 64, 200⟩
      (by decide) (by decide) (by decide) (by decide)⟩

/-- C7, counterexample: `getTileBounds` does **not** clamp edge tiles to the
buffer.  For a 40×40 buffer at tile size 32 (a 2×2 grid), the valid edge
tile `(row 0, col 1)` gets width `32`, not
`min(tileSize, width − col·tileSize) = min(32, 40 − 32) = 8` as the claim
states. -/
theorem C7_counterexample_edge_tile_unclamped :
    (Tiles.isValidTileIndex (Tiles.mkTiles 40 40 32) ⟨0, 1⟩ = true) ∧
    ((Tiles.getTileBounds (Tiles.mkTiles 40 40 32) ⟨0, 1⟩).width = 32) ∧
    (min (32 : Int) (40 - 1 * 32) = 8) ∧
    ((Tiles.getTileBounds (Tiles.mkTiles 40 40 32) ⟨0, 1⟩).width ≠
      min (32 : Int) (40 - 1 * 32)) := by
  decide

/-- C7, amended: for every tile index, `getTileBounds` returns origin
`(col·tileSize, row·tileSize)` and the **unclamped** size
`tileSize × tileSize`; the clipping to the buffer happens at the use sites
instead: `fillTile` writes exactly the pixels of the tile rectangle that
lie inside the buffer (so no operation ever touches bytes past `width` or
`height`), and leaves every other pixel unchanged. -/
theorem C7_tile_bounds_unclamped_clipped_at_use (st : TilesState)
    (index : TileIndex) (buf : PixelBuffer) (c : RGBA) (hwf : buf.WF)
    (hv : isValidTileIndex st index = true) (hr : c.r ≤ 255) (hg : c.g ≤ 255)
    (hbb : c.b ≤ 255) (ha : c.a ≤ 255) (px py : Int) :
    (getTileBounds st index =
      ⟨index.col * (st.tileSize : Int), index.row * (st.tileSize : Int),
        (st.tileSize : Int), (st.tileSize : Int)⟩) ∧
    ((fillTile buf st index c).1.get px py =
      if (index.col * (st.tileSize : Int) ≤ px ∧
          px < index.col * (st.tileSize : Int) + (st.tileSize : Int) ∧
          index.row * (st.tileSize : Int) ≤ py ∧
          py < index.row * (st.tileSize : Int) + (st.tileSize : Int) ∧
          buf.isInBounds px py = true) then c else buf.get px py) :=
  ⟨rfl, fillTile_get buf st index c hwf hv hr hg hbb ha px py⟩

theorem C7_witness :
    (Tiles.isValidTileIndex (Tiles.mkTiles 3 3 4) ⟨0, 0⟩ = true) ∧
    ((Tiles.fillTile (⟨3, 3, List.replicate 36 9⟩ : PixelBuffer)
        (Tiles.mkTiles 3 3 4) ⟨0, 0⟩ ⟨1, 2, 3, 4⟩).1.get 0 0 = ⟨1, 2, 3, 4⟩) ∧
    ((Tiles.fillTile (⟨3, 3, List.replicate 36 9⟩ : PixelBuffer)
        (Tiles.mkTiles 3 3 4) ⟨0, 0⟩ ⟨1, 2, 3, 4⟩).1.get 3 0 =
      (⟨3, 3, List.replicate 36 9⟩ : PixelBuffer).get 3 0) := by
  refine ⟨by decide, ?_, ?_⟩
  · have h := (C7_tile_bounds_unclamped_clipped_at_use (Tiles.mkTiles 3 3 4)
      ⟨0, 0⟩ ⟨3, 3, List.replicate 36 9⟩ ⟨1, 2, 3, 4⟩ rfl (by decide)
      (by decide) (by decide) (by decide) (by decide) 0 0).2
    rw [if_pos (by decide)] at h
    exact h
  · have h := (C7_tile_bounds_unclamped_clipped_at_use (Tiles.mkTiles 3 3 4)
      ⟨0, 0⟩ ⟨3, 3, List.replicate 36 9⟩ ⟨1, 2, 3, 4⟩ rfl (by decide)
      (by decide) (by decide) (by decide) (by decide) 3 0).2
    rw [if_neg (by decide)] at h
    exact h

/-- After `alistSet`, looking the key up yields the new value. -/
theorem alistGet?_alistSet {α β : Type} [DecidableEq α] (m : List (α × β))
    (k : α) (v : β) : alistGet? (alistSet m k v) k = some v := by
  unfold alistSet alistGet?
  by_cases h : m.any (fun e => decide (e.1 = k)) = true
  · rw [if_pos h]
    induction m with
    | nil => simp at h
    | cons e rest ih =>
        simp only [List.any_cons, Bool.or_eq_true, decide_eq_true_eq] at h
        by_cases he : e.1 = k
        · simp [he]
        · have hrest : rest.any (fun e => decide (e.1 = k)) = true := by
            rcases h with h | h
            · exact absurd h he
            · exact h
          simp only [List.map_cons, if_neg he]
          rw [List.find?_cons_of_neg _ (by simp [he])]
          exact ih hrest
  · rw [if_neg h]
    induction m with
    | nil => simp
    | cons e rest ih =>
        simp only [List.any_cons, Bool.or_eq_true, decide_eq_true_eq] at h
        push_neg at h
        obtain ⟨he, hrest⟩ := h
        simp only [List.cons_append]
        rw [List.find?_cons_of_neg _ (by simp [he])]
        exact ih hrest

/-- The entry written by `alistSet` is in the list. -/
theorem mem_alistSet_self {α β : Type} [DecidableEq α] (m : List (α × β))
    (k : α) (v : β) : (k, v) ∈ alistSet m k v := by
  unfold alistSet
  by_cases h : m.any (fun e => decide (e.1 = k)) = true
  · rw [if_pos h]
    obtain ⟨e, hem, hek⟩ := List.any_eq_true.mp h
    refine List.mem_map.mpr ⟨e, hem, ?_⟩
    simp [of_decide_eq_true hek]
  · rw [if_neg h]
    exact List.mem_append.mpr (Or.inr (List.mem_cons_self _ _))

/-- `alistSet` on an existing key keeps the length (the JS `Map.set`
replaces in place). -/
theorem alistSet_length_of_any {α β : Type} [DecidableEq α] (m : List (α × β))
    (k : α) (v : β) (h : m.any (fun e => decide (e.1 = k)) = true) :
    (alistSet m k v).length = m.length := by
  unfold alistSet
  rw [if_pos h]
  exact List.length_map _ _

/-- Setting the same key twice keeps the length of the map. -/
theorem alistSet_alistSet_length {α β : Type} [DecidableEq α]
    (m : List (α × β)) (k : α) (v1 v2 : β) :
    (alistSet (alistSet m k v1) k v2).length = (alistSet m k v1).length := by
  apply alistSet_length_of_any
  exact List.any_eq_true.mpr ⟨(k, v1), mem_alistSet_self m k v1, by simp⟩

/-- A one-point inclusive integer range. -/
theorem intRangeIncl_self (a : Int) : intRangeIncl a a = [a] := by
  unfold intRangeIncl
  have h1 : (a + 1 - a).toNat = 1 := by omega
  rw [h1, show List.range 1 = [0] from rfl, List.map_cons, List.map_nil]
  norm_num

/-- `fillRect` over a rectangle that exactly covers one (fully interior)
tile takes the tile-fill fast path: the buffer and tile state change via
`fillTile`, one tile-fill diff is recorded through `addTileFill`, and no
per-pixel diff is added. -/
theorem fillRect_exact_tile (st : AnvilState) (r c : Nat) (color : RGBA)
    (hts : 0 < st.tiles.tileSize)
    (hcol : (c + 1) * st.tiles.tileSize ≤ st.buffer.width)
    (hrow : (r + 1) * st.tiles.tileSize ≤ st.buffer.height) :
    Facade.fillRect st ((c : Int) * (st.tiles.tileSize : Int))
        ((r : Int) * (st.tiles.tileSize : Int))
        (st.tiles.tileSize : Int) (st.tiles.tileSize : Int) color = .ok
      { buffer := (fillTile st.buffer st.tiles ⟨(r : Int), (c : Int)⟩ color).1
        tiles := (fillTile st.buffer st.tiles ⟨(r : Int), (c : Int)⟩ color).2.1
        diffs := Diffs.addTileFill st.diffs
          ⟨⟨(r : Int), (c : Int)⟩,
            some ((getTileInfo st.tiles ⟨(r : Int), (c : Int)⟩).uniformColor.getD
              ⟨0, 0, 0, 0⟩),
            color⟩ } := by
  unfold Facade.fillRect
  rw [if_neg (by omega)]
  dsimp only
  have hstartX : Int.fdiv ((c : Int) * (st.tiles.tileSize : Int))
      (st.tiles.tileSize : Int) = (c : Int) :=
    Int.mul_fdiv_cancel _ (by omega)
  have hstartY : Int.fdiv ((r : Int) * (st.tiles.tileSize : Int))
      (st.tiles.tileSize : Int) = (r : Int) :=
    Int.mul_fdiv_cancel _ (by omega)
  have hne : (st.tiles.tileSize : Int) ≠ 0 := by omega
  have hsmall : ((st.tiles.tileSize : Int) - 1) / (st.tiles.tileSize : Int) = 0 :=
    Int.ediv_eq_zero_of_lt (by omega) (by omega)
  have hendX : Int.fdiv ((c : Int) * (st.tiles.tileSize : Int) +
      (st.tiles.tileSize : Int) - 1) (st.tiles.tileSize : Int) = (c : Int) := by
    have e : (c : Int) * (st.tiles.tileSize : Int) + (st.tiles.tileSize : Int) - 1 =
        ((st.tiles.tileSize : Int) - 1) + (c : Int) * (st.tiles.tileSize : Int) := by
      ring
    rw [Int.fdiv_eq_ediv _ (by omega), e,
      Int.add_mul_ediv_right _ _ hne, hsmall, zero_add]
  have hendY : Int.fdiv ((r : Int) * (st.tiles.tileSize : Int) +
      (st.tiles.tileSize : Int) - 1) (st.tiles.tileSize : Int) = (r : Int) := by
    have e : (r : Int) * (st.tiles.tileSize : Int) + (st.tiles.tileSize : Int) - 1 =
        ((st.tiles.tileSize : Int) - 1) + (r : Int) * (st.tiles.tileSize : Int) := by
      ring
    rw [Int.fdiv_eq_ediv _ (by omega), e,
      Int.add_mul_ediv_right _ _ hne, hsmall, zero_add]
  rw [hstartX, hstartY, hendX, hendY, intRangeIncl_self, intRangeIncl_self]
  simp only [List.foldlM_cons, List.foldlM_nil, bind_pure]
  have h1 : c + 1 ≤ ceilDiv st.buffer.width st.tiles.tileSize := by
    unfold Tiles.ceilDiv
    rw [Nat.le_div_iff_mul_le hts]
    omega
  have h2 : r + 1 ≤ ceilDiv st.buffer.height st.tiles.tileSize := by
    unfold Tiles.ceilDiv
    rw [Nat.le_div_iff_mul_le hts]
    omega
  have hguard : ¬((c : Int) ≥ ((ceilDiv st.buffer.width st.tiles.tileSize : Nat) : Int)
      ∨ (r : Int) ≥ ((ceilDiv st.buffer.height st.tiles.tileSize : Nat) : Int)) := by
    omega
  rw [if_neg hguard]
  have hcover : (c : Int) * (st.tiles.tileSize : Int) ≤ (c : Int) * (st.tiles.tileSize : Int) ∧
      (r : Int) * (st.tiles.tileSize : Int) ≤ (r : Int) * (st.tiles.tileSize : Int) ∧
      (c : Int) * (st.tiles.tileSize : Int) + (st.tiles.tileSize : Int) ≥
        min ((c : Int) * (st.tiles.tileSize : Int) + (st.tiles.tileSize : Int))
          (Facade.getWidth st) ∧
      (r : Int) * (st.tiles.tileSize : Int) + (st.tiles.tileSize : Int) ≥
        min ((r : Int) * (st.tiles.tileSize : Int) + (st.tiles.tileSize : Int))
          (Facade.getHeight st) := by
    refine ⟨le_refl _, le_refl _, ?_, ?_⟩
    · exact min_le_left _ _
    · exact min_le_left _ _
  rw [if_pos hcover]

/-- C2: evaluation at the failing input.  `resize` reallocates both bitsets
to zeroed arrays **before** the copy loop reads the old state through
`getTileInfo`, so the loop copies from the new, empty bitsets: a tile that
was dirty before the resize and lies in the overlapping region
(`row < min(oldRows, newRows)`, `col < min(oldCols, newCols)`) is **not**
dirty afterwards.  Here: a 64×64 grid at tile size 32 (2×2 tiles) resized
to 64×96 (3×2 tiles); tile (0,0) is in the overlap, dirty before, clean
after. -/
theorem C2_resize_drops_overlap_dirty :
    (Tiles.isDirty (Tiles.setDirty (Tiles.mkTiles 64 64 32) ⟨0, 0⟩ true) ⟨0, 0⟩
      = true) ∧
    (Tiles.isDirty
      (Tiles.resize (Tiles.setDirty (Tiles.mkTiles 64 64 32) ⟨0, 0⟩ true) 64 96)
      ⟨0, 0⟩ = false) := by
  decide

/-- C10: the fourth diff kind.  (a) A `fillRect` that completely covers a
(fully interior) tile records a tile-fill diff through `addTileFill` —
mutating buffer and tiles via `fillTile` — and adds **no** per-pixel diff;
`addTileFill` keys the entry by tile index, so (b) a later fill of the same
tile replaces the earlier entry in place; (c) a flush of a pending state
holding only tile fills yields a patch whose `tiles` field carries the
packed entries; and (d) `applyPatch` runs its stages in the order whole,
partial, tile fills, pixels, final flush. -/
theorem C10_tile_fill_diff_kind (st : AnvilState) (r c : Nat) (color : RGBA)
    (hts : 0 < st.tiles.tileSize)
    (hcol : (c + 1) * st.tiles.tileSize ≤ st.buffer.width)
    (hrow : (r + 1) * st.tiles.tileSize ≤ st.buffer.height) :
    (Facade.fillRect st ((c : Int) * (st.tiles.tileSize : Int))
        ((r : Int) * (st.tiles.tileSize : Int))
        (st.tiles.tileSize : Int) (st.tiles.tileSize : Int) color = .ok
      { buffer := (fillTile st.buffer st.tiles ⟨(r : Int), (c : Int)⟩ color).1
        tiles := (fillTile st.buffer st.tiles ⟨(r : Int), (c : Int)⟩ color).2.1
        diffs := Diffs.addTileFill st.diffs
          ⟨⟨(r : Int), (c : Int)⟩,
            some ((getTileInfo st.tiles ⟨(r : Int), (c : Int)⟩).uniformColor.getD
              ⟨0, 0, 0, 0⟩),
            color⟩ }) ∧
    (∀ (d : PendingDiffs) (t : TileFillPatchData),
      (Diffs.addTileFill d t).pixels = d.pixels ∧
      (Diffs.addTileFill d t).tileFills = alistSet d.tileFills (tileKey t.tileIndex) t) ∧
    (∀ (d : PendingDiffs) (t1 t2 : TileFillPatchData), t1.tileIndex = t2.tileIndex →
      alistGet? (Diffs.addTileFill (Diffs.addTileFill d t1) t2).tileFills
          (tileKey t2.tileIndex) = some t2 ∧
      (Diffs.addTileFill (Diffs.addTileFill d t1) t2).tileFills.length =
        (Diffs.addTileFill d t1).tileFills.length) ∧
    (∀ (cod : ImageCodec) (d : PendingDiffs), d.pixels = [] → d.prtl = none →
      d.whole = none → d.tileFills ≠ [] →
      Diffs.flush cod d = .ok
        (some { tiles := some (d.tileFills.map (fun e => Diffs.packTileFill e.2)) },
          Diffs.emptyPending)) ∧
    (∀ (cod : ImageCodec) (st2 : AnvilState) (patch : PackedDiffs) (mode : Mode),
      Facade.applyPatch cod st2 patch mode =
        Facade.stageWhole cod (st2, patch) >>= fun sp1 =>
        Facade.stagePartial cod sp1 >>= fun sp2 =>
        Facade.stageTiles mode sp2 >>= fun sp3 =>
        Facade.stagePixels sp3 >>= fun sp4 =>
        Facade.stageFinish cod sp4) := by
  refine ⟨fillRect_exact_tile st r c color hts hcol hrow, ?_, ?_, ?_, ?_⟩
  · intro d t
    exact ⟨rfl, rfl⟩
  · intro d t1 t2 h
    unfold Diffs.addTileFill
    dsimp only
    rw [show tileKey t1.tileIndex = tileKey t2.tileIndex from by rw [h]]
    exact ⟨alistGet?_alistSet _ _ _, alistSet_alistSet_length _ _ _ _⟩
  · intro cod d hp hpr hw htf
    have hpend : Diffs.hasPendingChanges d = true := by
      unfold Diffs.hasPendingChanges
      have : d.tileFills.length > 0 := List.length_pos.mpr htf
      simp [this]
    unfold Diffs.flush
    rw [if_pos hpend]
    have hpack : Diffs.packPending cod d = .ok
        { tiles := some (d.tileFills.map (fun e => Diffs.packTileFill e.2)) } := by
      unfold Diffs.packPending
      rw [hp, hpr, hw]
      have hne : d.tileFills.isEmpty = false := by
        cases htl : d.tileFills
        · exact absurd htl htf
        · rfl
      rw [hne]
      rfl
    rw [hpack]
    rfl
  · intro cod st2 patch mode
    rfl

theorem C10_witness :
    ((Facade.fillRect (Facade.mkAnvil 4 4 2)
        (((0 : Nat) : Int) * ((Facade.mkAnvil 4 4 2).tiles.tileSize : Int))
        (((0 : Nat) : Int) * ((Facade.mkAnvil 4 4 2).tiles.tileSize : Int))
        ((Facade.mkAnvil 4 4 2).tiles.tileSize : Int)
        ((Facade.mkAnvil 4 4 2).tiles.tileSize : Int) ⟨7, 7, 7, 7⟩).map
      (fun s => (s.diffs.pixels, alistGet? s.diffs.tileFills (tileKey ⟨0, 0⟩)))) =
      Except.ok ([], some ⟨⟨0, 0⟩, some ⟨0, 0, 0, 0⟩, ⟨7, 7, 7, 7⟩⟩) := by
  have h := (C10_tile_fill_diff_kind (Facade.mkAnvil 4 4 2) 0 0 ⟨7, 7, 7, 7⟩
    (by decide) (by decide) (by decide)).1
  rw [h]
  decide

/-- C1: evaluation at the failing input.  After one in-bounds `setPixel`, a
pixel pre-image is pending; `flush` then calls `packPending`, whose pixel
branch reads the fields `before`/`after` that do not exist on
`PixelPatchData` (which carries the single pre-image field `color`), so the
flush throws instead of producing the patch that the claimed undo/redo
roundtrip would consume. -/
theorem C1_flush_with_pixel_diffs_throws :
    (Facade.setPixel (Facade.mkAnvil 4 4 2) 1 1 ⟨9, 8, 7, 6⟩ >>=
      Facade.anvilFlush idCodec) = .error .undefinedField := by
  decide

end Anvil
